import Mathlib

/-!
Verification development for `imdb-renamer.py`.

The Python source is shallowly embedded: strings are `List Char`, regular
expressions are translated into executable scanners with Python `re`
semantics (leftmost match, alternation order, `\b` word boundaries over the
original string, `.` not matching newline, `$` matching at the end or
before a single trailing newline).  Character classes (`\w`, `\s`, `\d`,
`.upper()`, `.lower()`) are modelled over ASCII, which is faithful on the
ASCII data the program manipulates.  I/O (catalog search, stdin, renames)
is modelled by explicit environments, and per-folder processing produces an
event trace together with an optional uncaught exception.
-/

namespace ImdbRenamer

/-- Character list of a string literal. -/
def chars (s : String) : List Char := s.data

/-- Python regex word character `\w` (ASCII model): letters, digits, underscore. -/
def isWordChar (c : Char) : Bool := c.isAlphanum || c == '_'

/-- Word-character test on an optional preceding character; `none` (start of
string) counts as a non-word position, so a `\b` holds there. -/
def wordOpt : Option Char → Bool
  | none => false
  | some c => isWordChar c

/-- Python regex whitespace `\s` (ASCII model). -/
def isPySpace (c : Char) : Bool :=
  c == ' ' || c == '\t' || c == '\n' || c == '\r' || c == '\x0b' || c == '\x0c'

/-- Decimal digit character for `n < 10` (Python `str` of an int, per digit). -/
def digitChar (n : Nat) : Char := Char.ofNat (48 + n)

/-- Decimal rendering with a fuel bound; `n + 1` fuel always suffices since a
number has at most `n + 1` digits. -/
def natToCharsAux : Nat → Nat → List Char
  | 0, _ => []
  | fuel + 1, n =>
    if n < 10 then [digitChar n] else natToCharsAux fuel (n / 10) ++ [digitChar (n % 10)]

/-- Decimal rendering of a natural number, as Python `f"{n}"` produces. -/
def natToChars (n : Nat) : List Char := natToCharsAux (n + 1) n

theorem natToCharsAux_irrel :
    ∀ (n f1 f2 : Nat), n < f1 → n < f2 → natToCharsAux f1 n = natToCharsAux f2 n := by
  intro n
  induction n using Nat.strong_induction_on with
  | _ n ih =>
    intro f1 f2 h1 h2
    match f1, f2 with
    | g1 + 1, g2 + 1 =>
      rw [natToCharsAux, natToCharsAux]
      split_ifs with h10
      · rfl
      · have hlt : n / 10 < n := Nat.div_lt_self (by omega) (by omega)
        rw [ih (n / 10) hlt g1 g2 (by omega) (by omega)]

/-- The defining recurrence of the decimal rendering. -/
theorem natToChars_eval (n : Nat) :
    natToChars n =
      if n < 10 then [digitChar n] else natToChars (n / 10) ++ [digitChar (n % 10)] := by
  rw [natToChars, natToCharsAux]
  split_ifs with h10
  · rfl
  · have hlt : n / 10 < n := Nat.div_lt_self (by omega) (by omega)
    rw [natToCharsAux_irrel (n / 10) n (n / 10 + 1) hlt (by omega)]
    rfl

/-- Numeric value of a digit character. -/
def digitVal (c : Char) : Nat := c.toNat - 48

/-- Numeric value of a digit string (Python `int(s)` for ASCII digit strings). -/
def dsVal (ds : List Char) : Nat := ds.foldl (fun a c => 10 * a + digitVal c) 0

/-! ### `sanitize_folder_name` (lines 64-75)

First substitution pass: `re.sub(r"\[.*?\]|\b\d+p\b|\.|\-|_", " ", folder_name)`.
`re.sub` scans left to right, trying the alternatives in order at each
position; `.*?` cannot cross a newline; `\b` looks at the original
neighbouring characters. -/

/-- Non-greedy search for the closing `]` of `\[.*?\]`: returns the remainder
after the nearest `]`, failing on a newline (`.` does not match `\n`) or at
the end of the string. -/
def findBracketEnd : List Char → Option (List Char)
  | [] => none
  | c :: rest =>
    if c == ']' then some rest
    else if c == '\n' then none
    else findBracketEnd rest

/-- Does `\b\d+p\b` match at the head of `l`, with `prev` the original
character before this position?  Greedy `\d+` followed by `p` needs no
backtracking: a shorter digit run is followed by a digit, never by `p`. -/
def dpMatchAt (prev : Option Char) (l : List Char) : Bool :=
  !wordOpt prev &&
  (match l with
   | [] => false
   | c :: _ => c.isDigit) &&
  (match l.dropWhile Char.isDigit with
   | [] => false
   | c2 :: rest =>
     c2 == 'p' &&
     (match rest with
      | [] => true
      | r :: _ => !isWordChar r))

/-- Remainder of `l` after the `\d+p` match at its head. -/
def dpDrop (l : List Char) : List Char := (l.dropWhile Char.isDigit).tail

theorem findBracketEnd_length :
    ∀ (l r : List Char), findBracketEnd l = some r → r.length < l.length := by
  intro l
  induction l with
  | nil => intro r h; simp [findBracketEnd] at h
  | cons c cs ih =>
    intro r h
    rw [findBracketEnd] at h
    split_ifs at h with h1 h2
    · cases h; simp
    · have := ih r h
      simp; omega

theorem dpDrop_length (c : Char) (cs : List Char) :
    (dpDrop (c :: cs)).length < (c :: cs).length := by
  have h1 : ((c :: cs).dropWhile Char.isDigit).length ≤ (c :: cs).length :=
    (List.dropWhile_sublist _).length_le
  have h2 : (dpDrop (c :: cs)).length ≤ ((c :: cs).dropWhile Char.isDigit).length - 1 := by
    simp [dpDrop]
  simp at h1 ⊢
  omega

/-- The first substitution pass of `sanitize_folder_name`:
`re.sub(r"\[.*?\]|\b\d+p\b|\.|\-|_", " ", ·)`, scanning with the original
previous character `prev` for `\b` tests. -/
def pass1 : Option Char → List Char → List Char
  | _, [] => []
  | prev, c :: cs =>
    if c == '[' then
      match _h : findBracketEnd cs with
      | some rest => ' ' :: pass1 (some ']') rest
      | none => '[' :: pass1 (some '[') cs
    else if dpMatchAt prev (c :: cs) then
      ' ' :: pass1 (some 'p') (dpDrop (c :: cs))
    else if c == '.' || c == '-' || c == '_' then
      ' ' :: pass1 (some c) cs
    else c :: pass1 (some c) cs
termination_by _ l => l.length
decreasing_by
  all_goals first
    | (have hfb := findBracketEnd_length cs rest _h; simp; omega)
    | exact dpDrop_length c cs
    | simp

/-- Second substitution: `re.sub(r"[\(\)]", " ", ·)`. -/
def stripParensChars (l : List Char) : List Char :=
  l.map (fun c => if c == '(' || c == ')' then ' ' else c)

/-- `re.sub(r"\s+", " ", ·)`: every maximal whitespace run becomes one space. -/
def collapseWs : List Char → List Char
  | [] => []
  | [c] => if isPySpace c then [' '] else [c]
  | c1 :: c2 :: cs =>
    if isPySpace c1 && isPySpace c2 then collapseWs (c2 :: cs)
    else (if isPySpace c1 then ' ' else c1) :: collapseWs (c2 :: cs)

/-- Python `str.strip()`, left part. -/
def pyStripLeft (l : List Char) : List Char := l.dropWhile isPySpace

/-- Python `str.strip()`, right part. -/
def pyStripRight (l : List Char) : List Char := (l.reverse.dropWhile isPySpace).reverse

/-- Python `str.strip()` (ASCII whitespace model). -/
def pyStrip (l : List Char) : List Char := pyStripRight (pyStripLeft l)

/-- The `(19|20)` leading pair plus two digits of the year pattern. -/
def yearShape (d1 d2 d3 d4 : Char) : Bool :=
  ((d1 == '1' && d2 == '9') || (d1 == '2' && d2 == '0')) && d3.isDigit && d4.isDigit

/-- Right word-boundary test against the optional following character. -/
def bOkOpt : Option Char → Bool
  | none => true
  | some c => !isWordChar c

/-- Does `\b(19|20)\d{2}\b` match at the head of `l`? -/
def yearTokAt (prev : Option Char) (l : List Char) : Bool :=
  match l with
  | d1 :: d2 :: d3 :: d4 :: rest =>
    !wordOpt prev && yearShape d1 d2 d3 d4 && bOkOpt rest.head?
  | _ => false

/-- `re.search(r"\b(19|20)\d{2}\b", ·)`: first match, returned as
`(prefix, the four digits, suffix)`. -/
def yearScan (prev : Option Char) (l : List Char) : Option (List Char × List Char × List Char) :=
  match l with
  | [] => none
  | c :: cs =>
    if yearTokAt prev (c :: cs) then some ([], (c :: cs).take 4, (c :: cs).drop 4)
    else (yearScan (some c) cs).map (fun x => (c :: x.1, x.2.1, x.2.2))

/-- The cleaned name before the year normalization step of
`sanitize_folder_name`: both substitutions, whitespace collapse, strip. -/
def cleanOf (x : List Char) : List Char :=
  pyStrip (collapseWs (stripParensChars (pass1 none x)))

/-- `sanitize_folder_name` (lines 64-75), with the config current year `cy`
passed explicitly.  If the first year token is in `[1900, cy]`, everything
after it is truncated and the year re-appended (`f"{title_part} {year}"`). -/
def sanitize (cy : Nat) (x : List Char) : List Char :=
  let clean := cleanOf x
  match yearScan none clean with
  | some (pre, ds, _) =>
    let y := dsVal ds
    if 1900 ≤ y ∧ y ≤ cy then pyStrip pre ++ ' ' :: natToChars y else clean
  | none => clean

/-- `extract_year` (lines 77-84): first `\b(19|20)\d{2}\b` token of the raw
name, kept only when within `[1900, cy]`.  The code returns `str(year)`;
the numeric value is modelled. -/
def extract_year (cy : Nat) (x : List Char) : Option Nat :=
  match yearScan none x with
  | some (_, ds, _) =>
    let y := dsVal ds
    if 1900 ≤ y ∧ y ≤ cy then some y else none
  | none => none

/-! ### `safe_name` (lines 86-88) and `already_properly_named` (lines 90-93) -/

/-- Characters replaced by `safe_name`: `re.sub(r'[<>:"/\\|?*]', "-", name)`. -/
def illegalFsChar (c : Char) : Bool :=
  c == '<' || c == '>' || c == ':' || c == '"' || c == '/' || c == '\\' ||
  c == '|' || c == '?' || c == '*'

/-- `safe_name`: replaces filesystem-illegal characters with `-`. -/
def safe_name (l : List Char) : List Char :=
  l.map (fun c => if illegalFsChar c then '-' else c)

/-- The `$` anchor of `re.match` (no MULTILINE): matches at the end of the
string or just before one trailing newline. -/
def endOk : List Char → Bool
  | [] => true
  | c :: rest => c == '\n' && rest.isEmpty

/-- `\d+(\.\d+)?$`: digits, optionally a dot and more digits, then `$`.
Greedy `\d+` needs no backtracking here since `.` is not a digit. -/
def digitsThenEnd (l : List Char) : Bool :=
  let ds := l.takeWhile Char.isDigit
  let rest := l.dropWhile Char.isDigit
  !ds.isEmpty &&
  (endOk rest ||
   (match rest with
    | '.' :: r2 =>
      let ds2 := r2.takeWhile Char.isDigit
      !ds2.isEmpty && endOk (r2.dropWhile Char.isDigit)
    | _ => false))

/-- `\s?\d+(\.\d+)?$`: one optional whitespace, then the rating digits. -/
def ratingTail : List Char → Bool
  | [] => false
  | c :: rest => (isPySpace c && digitsThenEnd rest) || digitsThenEnd (c :: rest)

/-- The rigid tail of the canonical pattern after the `.* ` prefix:
`\((19|20)\d{2}\) - IMDb[-:]\s?\d+(\.\d+)?$`. -/
def tailMatch (l : List Char) : Bool :=
  match l with
  | c0 :: a :: b :: c :: d :: c5 :: c6 :: c7 :: c8 :: c9 :: c10 :: c11 :: c12 :: s :: rest =>
    c0 == '(' && c5 == ')' && c6 == ' ' && c7 == '-' && c8 == ' ' && c9 == 'I' &&
    c10 == 'M' && c11 == 'D' && c12 == 'b' && yearShape a b c d &&
    (s == '-' || s == ':') && ratingTail rest
  | _ => false

/-- Scanner for `re.match(r".* \(...", name)`: the `.*` prefix may cover any
non-newline characters; at each position either the literal space starts the
rigid tail or the character is absorbed by `.*`. -/
def apnScan : List Char → Bool
  | [] => false
  | c :: rest => (c == ' ' && tailMatch rest) || (c != '\n' && apnScan rest)

/-- `already_properly_named` (lines 90-93):
`re.match(r".* \((19|20)\d{2}\) - IMDb[-:]\s?\d+(\.\d+)?$", folder_name)`. -/
def already_properly_named (l : List Char) : Bool := apnScan l

/-! ### Candidates and `rename_folder`'s name construction (lines 198-204) -/

/-- A fetched movie record: `{"title", "year", "votes", "rating"}`.  The year
is `none` when IMDb returned no year (the code then holds the string
`"Unknown Year"`); the rating is carried in its Python string rendering. -/
structure Candidate where
  title : List Char
  year : Option Nat
  ratingStr : List Char
  votes : Nat
deriving DecidableEq

/-- Rendering of the `year` dict value in an f-string: an int renders in
decimal, the missing-year placeholder is the string `"Unknown Year"`. -/
def showYearField : Option Nat → List Char
  | some y => natToChars y
  | none => chars "Unknown Year"

/-- `f"{title} ({year}) - IMDb- {rating}"` passed through `safe_name`. -/
def computeNewName (title yearF ratingF : List Char) : List Char :=
  safe_name (title ++ chars " (" ++ yearF ++ chars ") - IMDb- " ++ ratingF)

/-- The target name `rename_folder` computes for a selected candidate. -/
def computeTargetName (c : Candidate) : List Char :=
  computeNewName c.title (showYearField c.year) c.ratingStr

/-! ### The candidate sort (lines 296-301)

`choices.sort(key=lambda x: (x["year"] == year_int, x["votes"]), reverse=True)`
or, without a year, `choices.sort(key=lambda x: x["votes"], reverse=True)`.
Python's sort is stable, also under `reverse=True`: equal keys keep input
order.  A candidate with unknown year holds the string `"Unknown Year"`,
and a Python `str == int` comparison is `False`. -/

/-- The sort key `(x["year"] == year_int, x["votes"])`, booleans as 1/0. -/
def candKey (ty : Nat) (c : Candidate) : Nat × Nat :=
  ((match c.year with
    | some y => if y == ty then 1 else 0
    | none => 0), c.votes)

/-- Descending lexicographic comparison on `candKey`: `a` may come before `b`
iff `key a ≥ key b`.  Ties fall in the `true` branch, so a stable sort keeps
input order, matching Python. -/
def leYear (ty : Nat) (a b : Candidate) : Bool :=
  decide ((candKey ty b).1 < (candKey ty a).1) ||
  (decide ((candKey ty b).1 = (candKey ty a).1) && decide ((candKey ty b).2 ≤ (candKey ty a).2))

/-- Descending comparison on votes alone (target year absent). -/
def leVotes (a b : Candidate) : Bool := decide (b.votes ≤ a.votes)

/-- The stable descending sort the code applies to `choices`. -/
def rank : Option Nat → List Candidate → List Candidate
  | some y, cs => cs.mergeSort (leYear y)
  | none, cs => cs.mergeSort leVotes

/-! ### The `retry` decorator (lines 42-59)

`op k` is the outcome of the `k`-th call (0-based) of the wrapped function.
If the `while` guard ever fails the Python wrapper falls through and
implicitly returns `None`, modelled by `.ok none`. -/

def retryLoop {E A : Type} (op : Nat → Except E A) (maxRetries : Nat)
    (attempts : Nat) : Except E (Option A) :=
  if attempts < maxRetries then
    match op attempts with
    | .ok a => .ok (some a)
    | .error e =>
      if attempts + 1 ≥ maxRetries then .error e
      else retryLoop op maxRetries (attempts + 1)
  else .ok none
termination_by maxRetries - attempts
decreasing_by omega

/-- The wrapper with the default `CONFIG["MAX_RETRIES"] = 3`. -/
def retryCall {E A : Type} (op : Nat → Except E A) : Except E (Option A) :=
  retryLoop op 3 0

/-! ### `simplify_name` (lines 220-231) -/

/-- `CONFIG["EXTRANEOUS_WORDS"]` (lines 28-31), in source order and case. -/
def extraneousWords : List (List Char) :=
  [chars "COMPLETE", chars "720p", chars "1080p", chars "BRrip", chars "BluRay",
   chars "HDRip", chars "sujaidr", chars "pimprg", chars "YTS", chars "MX",
   chars "x264", chars "x265", chars "HEVC", chars "AAC", chars "WEBRip",
   chars "WebDL", chars "H.264", chars "H.265", chars "DVDrip", chars "BRRip"]

/-- Python `str.upper()` (ASCII model). -/
def pyUpper (l : List Char) : List Char := l.map Char.toUpper

/-- Python `str.lower()` (ASCII model). -/
def pyLower (l : List Char) : List Char := l.map Char.toLower

/-- Python `str.split()` with no argument: split on whitespace runs,
discarding empty pieces. -/
def pySplitWs : List Char → List (List Char)
  | [] => []
  | c :: cs =>
    if isPySpace c then pySplitWs cs
    else (c :: cs.takeWhile (fun d => !isPySpace d)) ::
      pySplitWs (cs.dropWhile (fun d => !isPySpace d))
termination_by l => l.length
decreasing_by
  · simp
  · simp only [List.length_cons]
    exact Nat.lt_succ_of_le ((List.dropWhile_sublist _).length_le)

/-- `" ".join(words)`. -/
def joinSpace : List (List Char) → List Char
  | [] => []
  | [w] => w
  | w :: ws => w ++ ' ' :: joinSpace ws

/-- Non-greedy search for the closing `)` of `\(.*?\)` (cannot cross `\n`). -/
def findParenEnd : List Char → Option (List Char)
  | [] => none
  | c :: rest =>
    if c == ')' then some rest
    else if c == '\n' then none
    else findParenEnd rest

theorem findParenEnd_length :
    ∀ (l r : List Char), findParenEnd l = some r → r.length < l.length := by
  intro l
  induction l with
  | nil => intro r h; simp [findParenEnd] at h
  | cons c cs ih =>
    intro r h
    rw [findParenEnd] at h
    split_ifs at h with h1 h2
    · cases h; simp
    · have := ih r h
      simp; omega

/-- `re.sub(r"\(.*?\)", "", ·)`: drop every minimal non-newline-spanning
parenthesized group. -/
def removeParenGroups : List Char → List Char
  | [] => []
  | c :: cs =>
    if c == '(' then
      match _h : findParenEnd cs with
      | some rest => removeParenGroups rest
      | none => '(' :: removeParenGroups cs
    else c :: removeParenGroups cs
termination_by l => l.length
decreasing_by
  all_goals first
    | (rename_i cs0 _
       have := findParenEnd_length cs0 rest _h; simp; omega)
    | simp

/-- `simplify_name` (lines 220-231): drop words whose `upper()` form is in
`EXTRANEOUS_WORDS` (the list entries are compared verbatim), rejoin with
single spaces, remove parenthesized groups, strip. -/
def simplify (l : List Char) : List Char :=
  let kept := (pySplitWs l).filter (fun w => !(extraneousWords.contains (pyUpper w)))
  pyStrip (removeParenGroups (joinSpace kept))

/-! ### `extract_core_title` (lines 234-248)

Five case-insensitive `re.sub(..., "", ·)` passes, then whitespace collapse
and strip.  Each pass is a scanner threading the original previous character
for `\b`; a match yields the last consumed character and the remainder. -/

/-- Right word-boundary test at the head of the remainder. -/
def bOk (l : List Char) : Bool := bOkOpt l.head?

/-- Case-insensitive literal prefix match (ASCII lowering). -/
def ciPrefix : List Char → List Char → Option (List Char)
  | [], l => some l
  | _ :: _, [] => none
  | p :: ps, c :: cs => if c.toLower == p.toLower then ciPrefix ps cs else none

/-- `\d+\b` at the head: at least one digit, then a right boundary; returns
the last digit and the remainder. -/
def digitsBnd (l : List Char) : Option (Char × List Char) :=
  match l with
  | [] => none
  | c :: _ =>
    if c.isDigit then
      if bOk (l.dropWhile Char.isDigit) then
        some ((l.takeWhile Char.isDigit).getLastD '0', l.dropWhile Char.isDigit)
      else none
    else none

/-- `\b<word>\s?\d+\b` (case-insensitive), for `word` = `Season`/`Episode`. -/
def seasonLikeAt (word : List Char) (prev : Option Char) (l : List Char) :
    Option (Char × List Char) :=
  if wordOpt prev then none
  else
    match ciPrefix word l with
    | none => none
    | some rest =>
      match rest with
      | [] => none
      | c :: cs => if isPySpace c then digitsBnd cs else digitsBnd (c :: cs)

/-- `\b\d{3,4}p\b` (case-insensitive).  Greedy `{3,4}` tries four digits then
three; a failed four-digit attempt cannot be rescued by the three-digit one
when the fourth character is a digit, since `p` cannot be a digit. -/
def dddpAt (prev : Option Char) (l : List Char) : Option (Char × List Char) :=
  if wordOpt prev then none
  else
    match l with
    | d1 :: d2 :: d3 :: rest =>
      if d1.isDigit && d2.isDigit && d3.isDigit then
        match rest with
        | [] => none
        | d4 :: rest2 =>
          if d4.isDigit then
            match rest2 with
            | [] => none
            | p5 :: r3 => if p5.toLower == 'p' && bOk r3 then some (p5, r3) else none
          else if d4.toLower == 'p' && bOk rest2 then some (d4, rest2)
          else none
      else none
    | _ => none

/-- A word-alternation pattern element: `some c` is a literal (matched
case-insensitively), `none` is the regex `.` (any non-newline), which is how
the unescaped dots of `H.264`/`H.265` behave. -/
def patOf (s : String) : List (Option Char) :=
  s.data.map (fun c => if c == '.' then none else some c)

/-- Prefix match of one alternation pattern. -/
def patPrefix : List (Option Char) → List Char → Option (List Char)
  | [], l => some l
  | _ :: _, [] => none
  | some p :: ps, c :: cs => if c.toLower == p.toLower then patPrefix ps cs else none
  | none :: ps, c :: cs => if c != '\n' then patPrefix ps cs else none

/-- Try the alternation's branches in source order; a branch that matches but
fails the trailing `\b` backtracks to the next branch. -/
def altTry (l : List Char) : List (List (Option Char)) → Option (List Char)
  | [] => none
  | p :: ps =>
    match patPrefix p l with
    | some rest => if bOk rest then some rest else altTry l ps
    | none => altTry l ps

/-- `\b(w1|w2|...)\b` (case-insensitive) at the head of `l`.  The consumed
part is nonempty for the pattern lists used below, so `getLastD`'s default is
never taken. -/
def altWordAt (pats : List (List (Option Char))) (prev : Option Char)
    (l : List Char) : Option (Char × List Char) :=
  if wordOpt prev then none
  else
    match altTry l pats with
    | some rest => some ((l.take (l.length - rest.length)).getLastD 'p', rest)
    | none => none

theorem ciPrefix_length :
    ∀ (ps : List Char) (l r : List Char), ciPrefix ps l = some r →
      r.length + ps.length = l.length := by
  intro ps
  induction ps with
  | nil => intro l r h; simp [ciPrefix] at h; simp [h]
  | cons p ps ih =>
    intro l r h
    match l with
    | [] => simp [ciPrefix] at h
    | c :: cs =>
      rw [ciPrefix] at h
      split_ifs at h
      have := ih cs r h
      simp
      omega

theorem digitsBnd_length (l : List Char) (p : Char × List Char)
    (h : digitsBnd l = some p) : p.2.length < l.length := by
  match l with
  | [] => simp [digitsBnd] at h
  | c :: cs =>
    simp only [digitsBnd] at h
    split_ifs at h with h1 h2
    · cases h
      have h3 : ((c :: cs).dropWhile Char.isDigit).length ≤ cs.length := by
        rw [List.dropWhile_cons]
        simp [h1]
        exact (List.dropWhile_sublist _).length_le
      simp only [List.length_cons]
      omega

theorem seasonLikeAt_length (word : List Char) :
    ∀ (prev : Option Char) (l : List Char) (p : Char × List Char),
      seasonLikeAt word prev l = some p → p.2.length < l.length := by
  intro prev l p h
  rw [seasonLikeAt] at h
  split_ifs at h
  revert h
  match hc : ciPrefix word l with
  | none => intro h; simp at h
  | some rest =>
    intro h
    have hlen := ciPrefix_length word l rest hc
    match rest with
    | [] => simp at h
    | c :: cs =>
      simp only at h
      split_ifs at h with hsp
      · have := digitsBnd_length cs p h
        simp only [List.length_cons] at hlen
        omega
      · have := digitsBnd_length (c :: cs) p h
        simp only [List.length_cons] at hlen this
        omega

theorem dddpAt_length :
    ∀ (prev : Option Char) (l : List Char) (p : Char × List Char),
      dddpAt prev l = some p → p.2.length < l.length := by
  intro prev l p h
  match l with
  | [] => simp [dddpAt] at h
  | [d1] => simp [dddpAt] at h
  | [d1, d2] => simp [dddpAt] at h
  | [d1, d2, d3] =>
    simp only [dddpAt] at h
    split_ifs at h <;> simp at h
  | [d1, d2, d3, d4] =>
    simp only [dddpAt] at h
    split_ifs at h <;> try simp at h
    all_goals (subst h; simp only [List.length_cons, List.length_nil]; omega)
  | d1 :: d2 :: d3 :: d4 :: p5 :: r3 =>
    simp only [dddpAt] at h
    split_ifs at h <;> try simp at h
    all_goals (subst h; simp only [List.length_cons, List.length_nil]; omega)

theorem patPrefix_length :
    ∀ (ps : List (Option Char)) (l r : List Char), patPrefix ps l = some r →
      r.length + ps.length = l.length := by
  intro ps
  induction ps with
  | nil => intro l r h; simp [patPrefix] at h; simp [h]
  | cons p ps ih =>
    intro l r h
    match p, l with
    | some q, [] => simp [patPrefix] at h
    | none, [] => simp [patPrefix] at h
    | some q, c :: cs =>
      rw [patPrefix] at h
      split_ifs at h
      have := ih cs r h
      simp
      omega
    | none, c :: cs =>
      rw [patPrefix] at h
      split_ifs at h
      have := ih cs r h
      simp
      omega

theorem altTry_length :
    ∀ (pats : List (List (Option Char))) (l r : List Char),
      (∀ q ∈ pats, q ≠ []) → altTry l pats = some r → r.length < l.length := by
  intro pats
  induction pats with
  | nil => intro l r _ h; simp [altTry] at h
  | cons p ps ih =>
    intro l r hne h
    rw [altTry] at h
    rcases hp : patPrefix p l with _ | rest
    · rw [hp] at h
      simp only at h
      exact ih l r (fun q hq => hne q (by simp [hq])) h
    · rw [hp] at h
      simp only at h
      split_ifs at h
      · have hr : rest = r := by injection h
        subst hr
        have h1 := patPrefix_length p l rest hp
        have hpne : p ≠ [] := hne p (by simp)
        have h2 : p.length ≠ 0 := by simpa using hpne
        omega
      · exact ih l r (fun q hq => hne q (by simp [hq])) h

theorem altWordAt_length (pats : List (List (Option Char)))
    (hne : ∀ q ∈ pats, q ≠ []) :
    ∀ (prev : Option Char) (l : List Char) (p : Char × List Char),
      altWordAt pats prev l = some p → p.2.length < l.length := by
  intro prev l p h
  rw [altWordAt] at h
  split_ifs at h
  revert h
  match ht : altTry l pats with
  | none => intro h; simp at h
  | some rest =>
    intro h
    cases h
    exact altTry_length pats l rest hne ht

/-- Generic `re.sub(pattern, "", ·)` scanner over a position matcher `m`;
`hm` bounds the remainder so the scan terminates. -/
def subScan (m : Option Char → List Char → Option (Char × List Char))
    (hm : ∀ prev l p, m prev l = some p → p.2.length < l.length) :
    Option Char → List Char → List Char
  | _, [] => []
  | prev, c :: cs =>
    match h : m prev (c :: cs) with
    | some (lc, rest) => subScan m hm (some lc) rest
    | none => c :: subScan m hm (some c) cs
termination_by _ l => l.length
decreasing_by
  · exact hm _ _ _ h
  · simp

/-- The word alternation of the fourth pass (line 242), in source order. -/
def altPats1 : List (List (Option Char)) :=
  [patOf "BRRip", patOf "BluRay", patOf "HDRip", patOf "WebDL", patOf "WEBRip",
   patOf "x264", patOf "x265", patOf "HEVC", patOf "AAC", patOf "H.264",
   patOf "H.265", patOf "DVDrip"]

/-- The word alternation of the fifth pass (line 243). -/
def altPats2 : List (List (Option Char)) :=
  [patOf "sujaidr", patOf "pimprg", patOf "YTS", patOf "MX"]

/-- `extract_core_title` (lines 234-248). -/
def extract_core_title (l : List Char) : List Char :=
  let s1 := subScan (seasonLikeAt (chars "Season")) (seasonLikeAt_length _) none l
  let s2 := subScan (seasonLikeAt (chars "Episode")) (seasonLikeAt_length _) none s1
  let s3 := subScan dddpAt dddpAt_length none s2
  let s4 := subScan (altWordAt altPats1) (altWordAt_length _ (by decide)) none s3
  let s5 := subScan (altWordAt altPats2) (altWordAt_length _ (by decide)) none s4
  pyStrip (collapseWs s5)

/-! ### `prompt_user_choice` (lines 162-195) and `rename_folder` (lines 198-217) -/

/-- The dict returned by `prompt_user_choice`: a selected candidate carries
`title`, `year`, `rating`, `votes`; a custom entry carries only `title` and
`custom: True`.  `none` in a field models an absent dict key. -/
structure Choice where
  title : List Char
  yearF : Option (Option Nat)
  ratingF : Option (List Char)
  votesF : Option Nat
  custom : Bool
deriving DecidableEq

/-- The dict built for a selected candidate (`choices[choice_number - 1]`). -/
def candidateChoice (c : Candidate) : Choice :=
  ⟨c.title, some c.year, some c.ratingStr, some c.votes, false⟩

/-- The dict `{"title": custom_name, "custom": True}` (lines 183 and 191). -/
def customChoice (t : List Char) : Choice := ⟨t, none, none, none, true⟩

/-- Python `str.isdigit()` (ASCII model): nonempty and all digits. -/
def isDigits (l : List Char) : Bool := !l.isEmpty && l.all Char.isDigit

/-- `prompt_user_choice` reading from a finite stdin script, one list entry
per `input()` line.  The Python loop runs until valid input; an exhausted
script (the human never answers) is `none`.  The empty-custom-name retry
continues the outer `while True` loop. -/
def promptUserChoice (choices : List Candidate) : List (List Char) → Option Choice
  | [] => none
  | line :: rest =>
    let input := pyStrip line
    if isDigits input then
      let n := dsVal input
      if 1 ≤ n ∧ n ≤ choices.length then
        match choices[n - 1]? with
        | some c => some (candidateChoice c)
        | none => none
      else if n = choices.length + 1 then
        match rest with
        | [] => none
        | nameLine :: rest2 =>
          let nm := pyStrip nameLine
          if !nm.isEmpty then some (customChoice nm) else promptUserChoice choices rest2
      else promptUserChoice choices rest
    else if !input.isEmpty then some (customChoice input)
    else promptUserChoice choices rest
termination_by script => script.length
decreasing_by all_goals simp <;> omega

/-- Uncaught exceptions of the modelled run. -/
inductive Err
  | catalogUnavailable
  | keyError
deriving DecidableEq

/-- The name construction of `rename_folder` (lines 200-203):
`f"{choice['title']} ({choice['year']}) - IMDb- {choice['rating']}"` then
`safe_name`.  Subscripting a missing dict key raises `KeyError`; this happens
before the `try` block around `os.rename`, so it is uncaught. -/
def renameFolder (ch : Choice) : Except Err (List Char) :=
  match ch.yearF, ch.ratingF with
  | some y, some r => .ok (computeNewName ch.title (showYearField y) r)
  | _, _ => .error .keyError

/-! ### `main` (lines 252-388)

The per-folder body is modelled as a trace of the externally visible steps
plus an optional uncaught exception.  `get_movie_details` (search plus
concurrent detail fetches, behind `@retry()`) is abstracted as the
environment's `search`; `prompt_user_choice` as a total selector (a human
eventually answers); the stage-5 `input()` answers are environment fields. -/

/-- Externally visible per-folder events, in order of occurrence. -/
inductive Event
  | skippedAlready
  | search (q : List Char)
  | prompted (cs : List Candidate)
  | renamed (dry : Bool) (newName : List Char)
deriving DecidableEq

/-- Per-folder external world: catalog answers, the interactive selector,
and the stage-5 retry/custom-name input lines. -/
structure FolderEnv where
  search : List Char → Except Err (List Candidate)
  select : List Candidate → Choice
  retryAnswer : List Char
  customName : List Char

/-- Python substring test (`year not in sanitized_name`). -/
def begMatch : List Char → List Char → Bool
  | [], _ => true
  | _ :: _, [] => false
  | a :: as_, b :: bs => a == b && begMatch as_ bs

/-- `needle in hay` for strings. -/
def containsSeg (needle : List Char) : List Char → Bool
  | [] => needle.isEmpty
  | c :: cs => begMatch needle (c :: cs) || containsSeg needle cs

/-- The prompt-and-rename block repeated at every stage (lines 303-310, 327-
334, 351-358, 378-385): `prompt_user_choice` then `rename_folder`; a raised
`KeyError` aborts with the events so far. -/
def stepRename (sel : List Candidate → Choice) (dry : Bool) (cs : List Candidate) :
    List Event × Option Err :=
  match renameFolder (sel cs) with
  | .ok nm => ([.prompted cs, .renamed dry nm], none)
  | .error e => ([.prompted cs], some e)

/-- Prefix an event onto a step outcome. -/
def tagEv (e : Event) (t : List Event × Option Err) : List Event × Option Err :=
  (e :: t.1, t.2)

/-- Step 5 (lines 361-388): the custom-name retry.  The answer must strip-
lower to `"yes"`; an empty custom name skips the folder. -/
def step5 (fe : FolderEnv) (dry : Bool) : List Event × Option Err :=
  if pyLower (pyStrip fe.retryAnswer) = chars "yes" then
    let custom := pyStrip fe.customName
    if custom.isEmpty then ([], none)
    else
      match fe.search custom with
      | .error e => ([.search custom], some e)
      | .ok rs =>
        if rs.isEmpty then ([.search custom], none)
        else tagEv (.search custom) (stepRename fe.select dry rs)
  else ([], none)

/-- Step 4 (lines 337-358): retry with the core title when it differs from
the simplified name; an empty result falls through to step 5. -/
def step4 (fe : FolderEnv) (dry : Bool) (simplified : List Char) :
    List Event × Option Err :=
  let core := extract_core_title simplified
  if core ≠ simplified then
    match fe.search core with
    | .error e => ([.search core], some e)
    | .ok rs =>
      if rs.isEmpty then tagEv (.search core) (step5 fe dry)
      else tagEv (.search core) (stepRename fe.select dry rs)
  else step5 fe dry

/-- Step 3 (lines 313-334): retry with the simplified name when it differs
from the sanitized one; an empty result falls through to step 4. -/
def step3 (fe : FolderEnv) (dry : Bool) (sanitized : List Char) :
    List Event × Option Err :=
  let simplified := simplify sanitized
  if simplified ≠ sanitized then
    match fe.search simplified with
    | .error e => ([.search simplified], some e)
    | .ok rs =>
      if rs.isEmpty then tagEv (.search simplified) (step4 fe dry simplified)
      else tagEv (.search simplified) (stepRename fe.select dry rs)
  else step4 fe dry simplified

/-- The sanitized query of step 1 after the fixup at lines 278-279: append
the extracted year when it is not already a substring of the sanitized
name. -/
def adjSanitized (cy : Nat) (folder : List Char) : List Char :=
  match extract_year cy folder with
  | some y =>
    if !containsSeg (natToChars y) (sanitize cy folder) then
      sanitize cy folder ++ ' ' :: natToChars y
    else sanitize cy folder
  | none => sanitize cy folder

/-- One iteration of the folder loop (lines 264-388), for a directory named
`folder`: the already-named guard, then the sanitized-stage search with its
sort, then the escalation steps.  The sort at lines 296-301 is applied only
at this first stage. -/
def processFolder (fe : FolderEnv) (cy : Nat) (dry : Bool) (folder : List Char) :
    List Event × Option Err :=
  if already_properly_named folder then ([.skippedAlready], none)
  else
    let sanitized := adjSanitized cy folder
    match fe.search sanitized with
    | .error e => ([.search sanitized], some e)
    | .ok results =>
      let choices := rank (extract_year cy folder) results
      if choices.isEmpty then tagEv (.search sanitized) (step3 fe dry sanitized)
      else tagEv (.search sanitized) (stepRename fe.select dry choices)

/-- The folder loop of `main` (lines 264-388): sequential, no exception
handling, so the first uncaught error ends the run; later folders are not
reached. -/
def mainGo (env : List Char → FolderEnv) (cy : Nat) (dry : Bool) :
    List (List Char) → List (List Char × List Event) × Option Err
  | [] => ([], none)
  | f :: rest =>
    let r := processFolder (env f) cy dry f
    match r.2 with
    | some e => ([(f, r.1)], some e)
    | none =>
      let rs := mainGo env cy dry rest
      ((f, r.1) :: rs.1, rs.2)

/-- `main` (lines 252-262 plus the loop): if the base path does not exist the
run logs and returns with no folder processed; `folders` lists the
subdirectories in listing order. -/
def mainRun (env : List Char → FolderEnv) (cy : Nat) (dry : Bool)
    (rootExists : Bool) (folders : List (List Char)) :
    List (List Char × List Event) × Option Err :=
  if rootExists then mainGo env cy dry folders else ([], none)

/-! ## Helper lemmas -/

/-- One unfolding step of the retry loop. -/
theorem retryLoop_eq {E A : Type} (op : Nat → Except E A) (m att : Nat) :
    retryLoop op m att =
      if att < m then
        match op att with
        | .ok a => .ok (some a)
        | .error e =>
          if att + 1 ≥ m then .error e else retryLoop op m (att + 1)
      else .ok none := by
  rw [retryLoop]

/-- The retry loop only inspects outcomes of attempts below the maximum. -/
theorem retryLoop_congr {E A : Type} (op op' : Nat → Except E A) (m : Nat) :
    ∀ (n att : Nat), m - att ≤ n → (∀ k, att ≤ k → k < m → op k = op' k) →
      retryLoop op m att = retryLoop op' m att := by
  intro n
  induction n with
  | zero =>
    intro att h hag
    rw [retryLoop_eq op, retryLoop_eq op']
    have hnot : ¬att < m := by omega
    simp [hnot]
  | succ n ih =>
    intro att h hag
    rw [retryLoop_eq op, retryLoop_eq op']
    by_cases hlt : att < m
    · rw [if_pos hlt, if_pos hlt, hag att (Nat.le_refl _) hlt]
      cases hop : op' att with
      | ok a => rfl
      | error e =>
        by_cases h2 : att + 1 ≥ m
        · simp [h2]
        · simp only [if_neg h2]
          exact ih (att + 1) (by omega) (fun k hk1 hk2 => hag k (by omega) hk2)
    · rw [if_neg hlt, if_neg hlt]

/-! ## Helper lemmas for the ranking order -/

theorem leYear_iff (ty : Nat) (a b : Candidate) :
    leYear ty a b = true ↔
      ((candKey ty b).1 < (candKey ty a).1 ∨
       ((candKey ty b).1 = (candKey ty a).1 ∧ (candKey ty b).2 ≤ (candKey ty a).2)) := by
  simp [leYear]

theorem leYear_trans (ty : Nat) (a b c : Candidate)
    (hab : leYear ty a b = true) (hbc : leYear ty b c = true) : leYear ty a c = true := by
  rw [leYear_iff] at hab hbc ⊢
  omega

theorem leYear_total (ty : Nat) (a b : Candidate) :
    (leYear ty a b || leYear ty b a) = true := by
  rw [Bool.or_eq_true, leYear_iff, leYear_iff]
  omega

theorem leVotes_iff (a b : Candidate) : leVotes a b = true ↔ b.votes ≤ a.votes := by
  simp [leVotes]

theorem leVotes_trans (a b c : Candidate)
    (hab : leVotes a b = true) (hbc : leVotes b c = true) : leVotes a c = true := by
  rw [leVotes_iff] at hab hbc ⊢
  omega

theorem leVotes_total (a b : Candidate) : (leVotes a b || leVotes b a) = true := by
  rw [Bool.or_eq_true, leVotes_iff, leVotes_iff]
  omega

/-! ## Claim theorems -/

/-- Claim C3: with a target year present, ranking orders by primary key
`candidate.year == targetYear` descending and secondary key `votes`
descending; a candidate with unknown year counts as non-matching; without a
target year the sole key is `votes` descending; candidates equal under all
keys keep their input order (stable sort). -/
theorem C3_rank_ordering :
    (∀ (ty : Nat) (cs : List Candidate), (rank (some ty) cs).Perm cs)
    ∧ (∀ (ty : Nat) (cs : List Candidate),
        (rank (some ty) cs).Pairwise (fun a b =>
          (candKey ty b).1 < (candKey ty a).1 ∨
          ((candKey ty b).1 = (candKey ty a).1 ∧ (candKey ty b).2 ≤ (candKey ty a).2)))
    ∧ (∀ cs : List Candidate, (rank none cs).Perm cs)
    ∧ (∀ cs : List Candidate,
        (rank none cs).Pairwise (fun a b => b.votes ≤ a.votes))
    ∧ (∀ (ty : Nat) (a b : Candidate) (cs : List Candidate),
        [a, b].Sublist cs → candKey ty a = candKey ty b →
        [a, b].Sublist (rank (some ty) cs))
    ∧ (∀ (a b : Candidate) (cs : List Candidate),
        [a, b].Sublist cs → a.votes = b.votes → [a, b].Sublist (rank none cs))
    ∧ (∀ (ty : Nat) (c : Candidate), c.year = none → (candKey ty c).1 = 0) := by
  refine ⟨?_, ?_, ?_, ?_, ?_, ?_, ?_⟩
  · intro ty cs
    exact List.mergeSort_perm cs (leYear ty)
  · intro ty cs
    have h := @List.sorted_mergeSort _ (leYear ty) (leYear_trans ty) (leYear_total ty) cs
    exact h.imp (fun hab => (leYear_iff ty _ _).1 hab)
  · intro cs
    exact List.mergeSort_perm cs leVotes
  · intro cs
    have h := @List.sorted_mergeSort _ leVotes leVotes_trans leVotes_total cs
    exact h.imp (fun hab => (leVotes_iff _ _).1 hab)
  · intro ty a b cs hsub hkey
    exact List.pair_sublist_mergeSort (leYear_trans ty) (leYear_total ty)
      (by rw [leYear_iff, hkey]; omega) hsub
  · intro a b cs hsub hv
    exact List.pair_sublist_mergeSort leVotes_trans leVotes_total
      (by rw [leVotes_iff, hv]) hsub
  · intro ty c hc
    simp [candKey, hc]

/-- Witness for C3: two candidates that tie on both keys stay in input
order, in both ranking modes. -/
theorem C3_rank_ordering_witness :
    [(⟨chars "A", some 2000, chars "7", 5⟩ : Candidate), ⟨chars "B", some 2000, chars "6", 5⟩].Sublist
      (rank (some 1990) [⟨chars "A", some 2000, chars "7", 5⟩, ⟨chars "B", some 2000, chars "6", 5⟩])
    ∧ [(⟨chars "A", some 2000, chars "7", 5⟩ : Candidate), ⟨chars "B", some 2000, chars "6", 5⟩].Sublist
      (rank none [⟨chars "A", some 2000, chars "7", 5⟩, ⟨chars "B", some 2000, chars "6", 5⟩]) :=
  ⟨C3_rank_ordering.2.2.2.2.1 1990 _ _ _ (List.Sublist.refl _) (by decide),
   C3_rank_ordering.2.2.2.2.2.1 _ _ _ (List.Sublist.refl _) (by decide)⟩

/-- Claim C9: `extract_year` returns a value only when it is the first
`(19|20)\d{2}` token and lies in `[1900, currentYear]`; year tokens outside
that range (such as `"2999"` or `"1899"`, which do not even fit the token
shape) give an absent result.  The embedding is a pure function of its
input, so the input is never mutated. -/
theorem C9_extract_year :
    (∀ (cy : Nat) (l : List Char) (y : Nat), extract_year cy l = some y →
        ∃ pre ds post, yearScan none l = some (pre, ds, post) ∧
          dsVal ds = y ∧ 1900 ≤ y ∧ y ≤ cy)
    ∧ (∀ cy : Nat, extract_year cy (chars "2999") = none)
    ∧ (∀ cy : Nat, extract_year cy (chars "1899") = none)
    ∧ (∀ cy : Nat, cy < 2050 → extract_year cy (chars "2050 1999") = none) := by
  refine ⟨?_, ?_, ?_, ?_⟩
  · intro cy l y h
    unfold extract_year at h
    cases hscan : yearScan none l with
    | none => rw [hscan] at h; simp at h
    | some x =>
      obtain ⟨pre, ds, post⟩ := x
      rw [hscan] at h
      simp only at h
      split_ifs at h with hr
      · cases h
        exact ⟨pre, ds, post, rfl, rfl, hr.1, hr.2⟩
  · intro cy; rfl
  · intro cy; rfl
  · intro cy hcy
    unfold extract_year
    have hscan : yearScan none (chars "2050 1999") =
        some ([], ['2', '0', '5', '0'], [' ', '1', '9', '9', '9']) := by decide
    rw [hscan]
    simp only
    split_ifs with hr
    · exfalso
      have hv : dsVal ['2', '0', '5', '0'] = 2050 := by decide
      omega
    · rfl

/-- Witness for C9: the first token of `"Movie 1999 x"` is `1999`, in
range for current year 2026. -/
theorem C9_extract_year_witness :
    ∃ pre ds post, yearScan none (chars "Movie 1999 x") = some (pre, ds, post) ∧
      dsVal ds = 1999 ∧ 1900 ≤ 1999 ∧ 1999 ≤ 2026 :=
  C9_extract_year.1 2026 (chars "Movie 1999 x") 1999 (by decide)

/-- Claim C10: a folder whose name already matches the canonical pattern is
skipped before any catalog call: its processing trace holds no search, no
prompt and no rename. -/
theorem C10_resolved_skipped (fe : FolderEnv) (cy : Nat) (dry : Bool) (f : List Char)
    (h : already_properly_named f = true) :
    processFolder fe cy dry f = ([.skippedAlready], none) := by
  simp [processFolder, h]

/-- Witness for C10 at a canonical folder name. -/
theorem C10_resolved_skipped_witness :
    processFolder ⟨fun _ => .ok [], fun _ => customChoice (chars "x"), [], []⟩ 2026 false
      (chars "Dune (2021) - IMDb- 8.1") = ([.skippedAlready], none) :=
  C10_resolved_skipped _ _ _ _ (by decide)

/-- Claim C6 (code bug): `simplify_name` compares `word.upper()` against the
verbatim config entries, so entries containing lowercase letters (such as
`"BluRay"`) can never match any word: `"BluRay"` survives while the
all-uppercase entry `"COMPLETE"` is removed, and even lowercase `"bluray"`
survives, contradicting the config comment "Words to remove when simplifying
folder names" and the intended case-insensitive whole-word removal. -/
theorem C6_simplify_case_bug :
    simplify (chars "Dune BluRay COMPLETE") = chars "Dune BluRay" ∧
    simplify (chars "Dune bluray") = chars "Dune bluray" := by
  constructor <;>
    simp +decide [simplify, pySplitWs, extraneousWords, pyUpper, joinSpace,
      removeParenGroups, findParenEnd, pyStrip, pyStripLeft, pyStripRight, isPySpace, chars]

/-- Claim C7: with the default maximum of 3 attempts, two failures followed
by a success return the successful result; the operation's outcomes beyond
the third attempt never influence the result (no fourth attempt); three
failures raise the last error. -/
theorem C7_retry :
    (∀ (E A : Type) (op : Nat → Except E A) (e0 e1 : E) (a : A),
        op 0 = .error e0 → op 1 = .error e1 → op 2 = .ok a →
        retryCall op = .ok (some a))
    ∧ (∀ (E A : Type) (op op' : Nat → Except E A),
        (∀ k, k < 3 → op k = op' k) → retryCall op = retryCall op')
    ∧ (∀ (E A : Type) (op : Nat → Except E A) (e0 e1 e2 : E),
        op 0 = .error e0 → op 1 = .error e1 → op 2 = .error e2 →
        retryCall op = .error e2) := by
  refine ⟨?_, ?_, ?_⟩
  · intro E A op e0 e1 a h0 h1 h2
    simp [retryCall, retryLoop, h0, h1, h2]
  · intro E A op op' hag
    exact retryLoop_congr op op' 3 3 0 (by omega) (fun k _ hk => hag k hk)
  · intro E A op e0 e1 e2 h0 h1 h2
    simp [retryCall, retryLoop, h0, h1, h2]

/-- Witness for C7: a concrete operation failing twice then succeeding
returns `7`; one failing three times raises the last error `2`; outcomes
from the fourth call on are irrelevant. -/
theorem C7_retry_witness :
    retryCall (fun k => if k < 2 then (.error 9 : Except Nat Nat) else .ok 7) = .ok (some 7)
    ∧ retryCall (fun k => if k < 2 then (.error 9 : Except Nat Nat) else .ok 7) =
        retryCall (fun k => if k < 2 then (.error 9 : Except Nat Nat) else
          if k = 3 then .error 5 else .ok 7)
    ∧ retryCall (fun k => (.error k : Except Nat Nat)) = .error 2 :=
  ⟨C7_retry.1 Nat Nat _ 9 9 7 rfl rfl rfl,
   C7_retry.2.1 Nat Nat _ _ (by intro k hk; interval_cases k <;> rfl),
   C7_retry.2.2 Nat Nat _ 0 1 2 rfl rfl rfl⟩

/-- Any choice `prompt_user_choice` returns with the custom flag set holds
only a title: its `year` and `rating` keys are absent. -/
theorem promptUserChoice_custom :
    ∀ (n : Nat) (choices : List Candidate) (script : List (List Char)) (c : Choice),
      script.length ≤ n → promptUserChoice choices script = some c → c.custom = true →
      c.yearF = none ∧ c.ratingF = none := by
  intro n
  induction n with
  | zero =>
    intro choices script c hlen h hc
    match script with
    | [] => simp [promptUserChoice] at h
    | x :: xs => simp at hlen
  | succ n ih =>
    intro choices script c hlen h hc
    match script with
    | [] => simp [promptUserChoice] at h
    | line :: rest =>
      rw [promptUserChoice.eq_def] at h
      simp only at h
      split_ifs at h with h1 h2 h3 h4
      · cases hidx : choices[dsVal (pyStrip line) - 1]? with
        | some cand =>
          rw [hidx] at h
          simp only [Option.some.injEq] at h
          subst h
          simp [candidateChoice] at hc
        | none => rw [hidx] at h; exact absurd h (by simp)
      · match rest with
        | [] => exact absurd h (by simp)
        | nameLine :: rest2 =>
          simp only at h
          split_ifs at h with h5
          · simp only [Option.some.injEq] at h
            subst h
            exact ⟨rfl, rfl⟩
          · exact ih choices rest2 c (by simp at hlen; omega) h hc
      · exact ih choices rest c (by simp at hlen; omega) h hc
      · simp only [Option.some.injEq] at h
        subst h
        exact ⟨rfl, rfl⟩
      · exact ih choices rest c (by simp at hlen; omega) h hc

/-- Claim C4: a custom-title selection yields a choice with only a title and
the custom flag — its `year` and `rating` keys are absent — and
`rename_folder` applied to it unconditionally subscripts those keys, raising
an uncaught `KeyError`; the second conjunct shows the custom option (index
`len + 1`) actually produces such a choice. -/
theorem C4_custom_keyerror :
    (∀ (choices : List Candidate) (script : List (List Char)) (c : Choice),
        promptUserChoice choices script = some c → c.custom = true →
        c.yearF = none ∧ c.ratingF = none ∧ renameFolder c = .error .keyError)
    ∧ promptUserChoice [⟨chars "Dune", some 2021, chars "8.1", 1000⟩]
        [chars "2", chars "My Movie"] = some (customChoice (chars "My Movie")) := by
  constructor
  · intro choices script c h hc
    obtain ⟨hy, hr⟩ := promptUserChoice_custom script.length choices script c (Nat.le_refl _) h hc
    refine ⟨hy, hr, ?_⟩
    unfold renameFolder
    rw [hy, hr]
  · simp +decide [promptUserChoice, pyStrip, pyStripLeft, pyStripRight, isPySpace, isDigits,
      dsVal, digitVal, customChoice, chars]

/-- Witness for C4: the concrete custom selection of the theorem's second
conjunct has absent year and rating keys and makes `rename_folder` raise. -/
theorem C4_custom_keyerror_witness :
    (customChoice (chars "My Movie")).yearF = none ∧
      (customChoice (chars "My Movie")).ratingF = none ∧
      renameFolder (customChoice (chars "My Movie")) = .error .keyError :=
  C4_custom_keyerror.1 [⟨chars "Dune", some 2021, chars "8.1", 1000⟩]
    [chars "2", chars "My Movie"] _ C4_custom_keyerror.2 rfl

/-! ## Helper lemmas for the canonical-name round trip -/

theorem digitChar_isDigit (k : Nat) (h : k ≤ 9) : (digitChar k).isDigit = true := by
  interval_cases k <;> decide

theorem digit_not_illegal (c : Char) (h : c.isDigit = true) : illegalFsChar c = false := by
  rw [Bool.eq_false_iff]
  intro hil
  have h9 : c = '<' ∨ c = '>' ∨ c = ':' ∨ c = '"' ∨ c = '/' ∨ c = '\\' ∨ c = '|' ∨
      c = '?' ∨ c = '*' := by
    simpa [illegalFsChar, or_assoc] using hil
  rcases h9 with rfl | rfl | rfl | rfl | rfl | rfl | rfl | rfl | rfl <;>
    exact absurd h (by decide)

theorem safe_name_append (a b : List Char) :
    safe_name (a ++ b) = safe_name a ++ safe_name b := by
  simp [safe_name]

theorem safe_name_self (l : List Char) (h : ∀ c ∈ l, illegalFsChar c = false) :
    safe_name l = l := by
  induction l with
  | nil => rfl
  | cons c cs ih =>
    have hc := h c (by simp)
    simp [safe_name, hc] at ih ⊢
    exact ih (fun d hd => h d (by simp [hd]))

theorem safe_name_no_newline (l : List Char) (h : ∀ c ∈ l, c ≠ '\n') :
    ∀ c ∈ safe_name l, c ≠ '\n' := by
  intro c hc
  simp only [safe_name, List.mem_map] at hc
  obtain ⟨d, hd, rfl⟩ := hc
  split_ifs with hil
  · decide
  · exact h d hd

theorem natToChars_year (y : Nat) (h1 : 1900 ≤ y) (h2 : y ≤ 2099) :
    natToChars y =
      [digitChar (y / 1000), digitChar (y / 100 % 10),
       digitChar (y / 10 % 10), digitChar (y % 10)] := by
  rw [natToChars_eval, if_neg (by omega)]
  rw [natToChars_eval, if_neg (by omega)]
  rw [natToChars_eval, if_neg (by omega)]
  rw [natToChars_eval, if_pos (by omega)]
  have e1 : y / 10 / 10 = y / 100 := by omega
  rw [e1]
  have e2 : y / 100 / 10 = y / 1000 := by omega
  rw [e2]
  simp

theorem natToChars_year_digits (y : Nat) (h1 : 1900 ≤ y) (h2 : y ≤ 2099) :
    ∀ c ∈ natToChars y, c.isDigit = true := by
  rw [natToChars_year y h1 h2]
  intro c hc
  simp only [List.mem_cons, List.not_mem_nil, or_false] at hc
  rcases hc with rfl | rfl | rfl | rfl <;> exact digitChar_isDigit _ (by omega)

theorem natToChars_year_shape (y : Nat) (h1 : 1900 ≤ y) (h2 : y ≤ 2099) :
    yearShape (digitChar (y / 1000)) (digitChar (y / 100 % 10))
      (digitChar (y / 10 % 10)) (digitChar (y % 10)) = true := by
  have h3 := digitChar_isDigit (y / 10 % 10) (by omega)
  have h4 := digitChar_isDigit (y % 10) (by omega)
  rcases Nat.lt_or_ge y 2000 with hc | hc
  · have e1 : y / 1000 = 1 := by omega
    have e2 : y / 100 % 10 = 9 := by omega
    rw [e1, e2]
    simp [yearShape, h3, h4]
    decide
  · have e1 : y / 1000 = 2 := by omega
    have e2 : y / 100 % 10 = 0 := by omega
    rw [e1, e2]
    simp [yearShape, h3, h4]
    decide

theorem takeWhile_of_all (p : Char → Bool) (l : List Char) (h : ∀ c ∈ l, p c = true) :
    l.takeWhile p = l ∧ l.dropWhile p = [] := by
  induction l with
  | nil => simp
  | cons c cs ih =>
    have hc := h c (by simp)
    have := ih (fun d hd => h d (by simp [hd]))
    simp [List.takeWhile_cons, List.dropWhile_cons, hc, this]

theorem takeWhile_of_append (p : Char → Bool) (ds : List Char) (x : Char) (xs : List Char)
    (hds : ∀ c ∈ ds, p c = true) (hx : p x = false) :
    (ds ++ x :: xs).takeWhile p = ds ∧ (ds ++ x :: xs).dropWhile p = x :: xs := by
  induction ds with
  | nil => simp [List.takeWhile_cons, List.dropWhile_cons, hx]
  | cons c cs ih =>
    have hc := hds c (by simp)
    have := ih (fun d hd => hds d (by simp [hd]))
    simp [List.takeWhile_cons, List.dropWhile_cons, hc, this]

theorem digitsThenEnd_int (ds : List Char) (h1 : ds ≠ [])
    (h2 : ∀ c ∈ ds, c.isDigit = true) : digitsThenEnd ds = true := by
  obtain ⟨ht, hd⟩ := takeWhile_of_all Char.isDigit ds h2
  simp [digitsThenEnd, ht, hd, endOk, h1]

theorem digitsThenEnd_dec (ds : List Char) (d : Char) (h1 : ds ≠ [])
    (h2 : ∀ c ∈ ds, c.isDigit = true) (hd : d.isDigit = true) :
    digitsThenEnd (ds ++ '.' :: [d]) = true := by
  obtain ⟨ht, hdr⟩ := takeWhile_of_append Char.isDigit ds '.' [d] h2 (by decide)
  obtain ⟨ht2, hd2⟩ := takeWhile_of_all Char.isDigit [d] (by simpa using hd)
  simp [digitsThenEnd, ht, hdr, endOk, h1, ht2, hd2]

theorem tailMatch_build (e1 e2 e3 e4 : Char) (rs : List Char)
    (hshape : yearShape e1 e2 e3 e4 = true) (hrs : digitsThenEnd rs = true) :
    tailMatch ('(' :: e1 :: e2 :: e3 :: e4 :: ')' :: ' ' :: '-' :: ' ' ::
      'I' :: 'M' :: 'D' :: 'b' :: '-' :: ' ' :: rs) = true := by
  simp [tailMatch, ratingTail, hshape, hrs, isPySpace]

theorem apnScan_append (t rest : List Char) (ht : ∀ c ∈ t, c ≠ '\n')
    (hr : tailMatch rest = true) : apnScan (t ++ ' ' :: rest) = true := by
  induction t with
  | nil => simp [apnScan, hr]
  | cons c cs ih =>
    have hc : c ≠ '\n' := ht c (by simp)
    simp [apnScan, hc, ih (fun d hd => ht d (by simp [hd]))]

/-- Claim C5 (amended): the canonical naming format round-trips — for a
candidate whose year is a 4-digit integer in `[1900, 2099]`, whose rating
renders as an integer or one-decimal float, and whose title contains no
newline, the target name `rename_folder` computes (after `safe_name`)
matches the already-resolved pattern.  The newline exclusion is forced by
`re.match`'s `.*`, which cannot cross a newline. -/
theorem C5_roundtrip (c : Candidate) (y : Nat)
    (hy : c.year = some y) (h1 : 1900 ≤ y) (h2 : y ≤ 2099)
    (hr : (c.ratingStr ≠ [] ∧ ∀ ch ∈ c.ratingStr, ch.isDigit = true) ∨
          (∃ ds d, c.ratingStr = ds ++ '.' :: [d] ∧ ds ≠ [] ∧
            (∀ ch ∈ ds, ch.isDigit = true) ∧ d.isDigit = true))
    (ht : ∀ ch ∈ c.title, ch ≠ '\n') :
    already_properly_named (computeTargetName c) = true := by
  have hrs : digitsThenEnd c.ratingStr = true := by
    rcases hr with ⟨hne, hdig⟩ | ⟨ds, d, heq, hne, hdig, hd⟩
    · exact digitsThenEnd_int _ hne hdig
    · rw [heq]; exact digitsThenEnd_dec ds d hne hdig hd
  have hrill : ∀ ch ∈ c.ratingStr, illegalFsChar ch = false := by
    intro ch hch
    rcases hr with ⟨hne, hdig⟩ | ⟨ds, d, heq, hne, hdig, hd⟩
    · exact digit_not_illegal ch (hdig ch hch)
    · rw [heq] at hch
      simp only [List.mem_append, List.mem_cons, List.not_mem_nil, or_false] at hch
      rcases hch with hch | rfl | rfl
      · exact digit_not_illegal ch (hdig ch hch)
      · decide
      · exact digit_not_illegal ch hd
  unfold computeTargetName computeNewName
  rw [hy]
  have hyd : showYearField (some y) = natToChars y := rfl
  rw [hyd]
  rw [safe_name_append, safe_name_append, safe_name_append, safe_name_append]
  rw [safe_name_self (chars " (") (by decide)]
  rw [safe_name_self (chars ") - IMDb- ") (by decide)]
  rw [safe_name_self (natToChars y)
    (fun ch hch => digit_not_illegal ch (natToChars_year_digits y h1 h2 ch hch))]
  rw [safe_name_self c.ratingStr hrill]
  have hshape := natToChars_year_shape y h1 h2
  have htail := tailMatch_build _ _ _ _ c.ratingStr hshape hrs
  have hfinal := apnScan_append (safe_name c.title)
    ('(' :: digitChar (y / 1000) :: digitChar (y / 100 % 10) ::
      digitChar (y / 10 % 10) :: digitChar (y % 10) :: ')' :: ' ' :: '-' :: ' ' ::
      'I' :: 'M' :: 'D' :: 'b' :: '-' :: ' ' :: c.ratingStr)
    (safe_name_no_newline c.title ht) htail
  unfold already_properly_named
  have hL : safe_name c.title ++ chars " (" ++ natToChars y ++ chars ") - IMDb- " ++
      c.ratingStr =
    safe_name c.title ++ ' ' ::
      ('(' :: digitChar (y / 1000) :: digitChar (y / 100 % 10) ::
        digitChar (y / 10 % 10) :: digitChar (y % 10) :: ')' :: ' ' :: '-' :: ' ' ::
        'I' :: 'M' :: 'D' :: 'b' :: '-' :: ' ' :: c.ratingStr) := by
    rw [natToChars_year y h1 h2]
    have hs1 : chars " (" = [' ', '('] := rfl
    have hs2 : chars ") - IMDb- " = [')', ' ', '-', ' ', 'I', 'M', 'D', 'b', '-', ' '] := rfl
    rw [hs1, hs2]
    simp
  rw [hL]
  exact hfinal

/-- Counterexample to C5 as stated: a title containing a newline defeats the
round trip even with an in-range year and an integer rating, because the
pattern's `.*` cannot match across the newline. -/
theorem C5_roundtrip_counterexample :
    (1900 ≤ 1999 ∧ 1999 ≤ 2099 ∧ chars "7" ≠ [] ∧
      (∀ ch ∈ chars "7", ch.isDigit = true)) ∧
    already_properly_named
      (computeTargetName ⟨chars "A\nB", some 1999, chars "7", 100⟩) = false := by
  constructor
  · refine ⟨by omega, by omega, by decide, by decide⟩
  · decide

/-- Witness for C5: a title with a filesystem-illegal colon, a 2024 year and
a one-decimal rating round-trips. -/
theorem C5_roundtrip_witness :
    already_properly_named
      (computeTargetName ⟨chars "Dune: Part Two", some 2024, chars "8.5", 5⟩) = true :=
  C5_roundtrip ⟨chars "Dune: Part Two", some 2024, chars "8.5", 5⟩ 2024 rfl
    (by omega) (by omega)
    (Or.inr ⟨chars "8", '5', by decide, by decide, by decide, by decide⟩)
    (by decide)

/-! ## Environments for the run-level claims -/

/-- An environment whose catalog search always fails after retry exhaustion. -/
def failEnv : List Char → FolderEnv :=
  fun _ => ⟨fun _ => .error .catalogUnavailable, fun _ => customChoice (chars "x"), [], []⟩

/-- Low-vote candidate used by the staging scenario. -/
def cLow : Candidate := ⟨chars "Low", some 2020, chars "6.0", 5⟩

/-- High-vote candidate used by the staging scenario. -/
def cHigh : Candidate := ⟨chars "High", some 2020, chars "8.0", 100⟩

/-- An environment where the sanitized-stage query finds nothing and the
simplified query returns two candidates in ascending-vote order; the
selector takes the first offered candidate. -/
def twoStageEnv : FolderEnv :=
  ⟨fun q => if q = chars "Dune 2020" then .ok [cLow, cHigh] else .ok [],
   fun cs => candidateChoice (cs.headD cHigh), [], []⟩

/-- Claim C1 (amended): nothing is caught around the folder loop, so a
`CatalogUnavailable` raised while processing one folder aborts the entire
run — the remaining folders are never processed — and a missing root path
terminates immediately with no folder processed. -/
theorem C1_error_aborts_whole_run :
    (∀ (env : List Char → FolderEnv) (cy : Nat) (dry : Bool) (folders : List (List Char)),
        mainRun env cy dry false folders = ([], none))
    ∧ (∀ (env : List Char → FolderEnv) (cy : Nat) (dry : Bool) (f : List Char)
        (rest : List (List Char)) (e : Err),
        (processFolder (env f) cy dry f).2 = some e →
        mainRun env cy dry true (f :: rest) =
          ([(f, (processFolder (env f) cy dry f).1)], some e)) := by
  constructor
  · intro env cy dry folders
    simp [mainRun]
  · intro env cy dry f rest e h
    simp [mainRun, mainGo, h]

/-- Counterexample to C1 as stated: with the catalog unavailable, the run
over two folders dies on the first folder's search — the result carries the
error and holds no entry for the second folder, so the loop did not continue
with it. -/
theorem C1_error_aborts_counterexample :
    mainRun failEnv 2026 false true [chars "Movie A", chars "Movie B"] =
      ([(chars "Movie A", [.search (chars "Movie A")])], some .catalogUnavailable) := by
  have hp : processFolder (failEnv (chars "Movie A")) 2026 false (chars "Movie A") =
      ([.search (chars "Movie A")], some .catalogUnavailable) := by
    simp +decide [processFolder, failEnv, adjSanitized, extract_year, sanitize, cleanOf, chars,
      pass1, findBracketEnd, dpMatchAt, dpDrop, stripParensChars, collapseWs, pyStrip,
      pyStripLeft, pyStripRight, yearScan, yearTokAt, yearShape, bOkOpt, wordOpt, isWordChar,
      isPySpace, dsVal, digitVal, already_properly_named, apnScan, tailMatch, ratingTail,
      digitsThenEnd, endOk]
  simp [mainRun, mainGo, hp]

/-- Witness for C1's amended statement, at the failing environment. -/
theorem C1_error_aborts_whole_run_witness :
    mainRun failEnv 2026 false true [chars "Movie A", chars "Movie B"] =
      ([(chars "Movie A",
          (processFolder (failEnv (chars "Movie A")) 2026 false (chars "Movie A")).1)],
        some .catalogUnavailable) :=
  C1_error_aborts_whole_run.2 failEnv 2026 false (chars "Movie A") [chars "Movie B"]
    .catalogUnavailable
    (by simp +decide [processFolder, failEnv, adjSanitized, extract_year, sanitize, cleanOf,
      chars, pass1, findBracketEnd, dpMatchAt, dpDrop, stripParensChars, collapseWs, pyStrip,
      pyStripLeft, pyStripRight, yearScan, yearTokAt, yearShape, bOkOpt, wordOpt, isWordChar,
      isPySpace, dsVal, digitVal, already_properly_named, apnScan, tailMatch, ratingTail,
      digitsThenEnd, endOk])

/-- Claim C2 (amended): only the sanitized stage hands the selector a
CandidateRanker-ordered list, ranked with the year extracted from the
original raw folder name; the simplified, core-title and custom-retry
stages pass the catalog's result list unranked, in catalog order. -/
theorem C2_rank_only_first_stage :
    (∀ (fe : FolderEnv) (cy : Nat) (dry : Bool) (f : List Char) (cs : List Candidate),
        already_properly_named f = false →
        fe.search (adjSanitized cy f) = .ok cs →
        rank (extract_year cy f) cs ≠ [] →
        processFolder fe cy dry f =
          tagEv (.search (adjSanitized cy f))
            (stepRename fe.select dry (rank (extract_year cy f) cs)))
    ∧ (∀ (fe : FolderEnv) (dry : Bool) (s : List Char) (cs2 : List Candidate),
        simplify s ≠ s → fe.search (simplify s) = .ok cs2 → cs2 ≠ [] →
        step3 fe dry s = tagEv (.search (simplify s)) (stepRename fe.select dry cs2))
    ∧ (∀ (fe : FolderEnv) (dry : Bool) (s : List Char) (cs3 : List Candidate),
        extract_core_title s ≠ s → fe.search (extract_core_title s) = .ok cs3 → cs3 ≠ [] →
        step4 fe dry s =
          tagEv (.search (extract_core_title s)) (stepRename fe.select dry cs3))
    ∧ (∀ (fe : FolderEnv) (dry : Bool) (cs4 : List Candidate),
        pyLower (pyStrip fe.retryAnswer) = chars "yes" →
        pyStrip fe.customName ≠ [] → fe.search (pyStrip fe.customName) = .ok cs4 →
        cs4 ≠ [] →
        step5 fe dry =
          tagEv (.search (pyStrip fe.customName)) (stepRename fe.select dry cs4)) := by
  refine ⟨?_, ?_, ?_, ?_⟩
  · intro fe cy dry f cs h1 h2 h3
    have h3' : (rank (extract_year cy f) cs).isEmpty = false := by simpa using h3
    simp [processFolder, h1, h2, h3']
  · intro fe dry s cs2 h1 h2 h3
    have h3' : cs2.isEmpty = false := by simpa using h3
    simp [step3, h1, h2, h3']
  · intro fe dry s cs3 h1 h2 h3
    have h3' : cs3.isEmpty = false := by simpa using h3
    simp [step4, h1, h2, h3']
  · intro fe dry cs4 h1 h2 h3 h4
    have h4' : cs4.isEmpty = false := by simpa using h4
    have h2' : (pyStrip fe.customName).isEmpty = false := by simpa using h2
    simp [step5, h1, h2', h3, h4']

/-- Counterexample to C2 as stated: the folder resolves at the simplified
stage, whose prompt receives the catalog order `[cLow, cHigh]`, while the
CandidateRanker ordering for the same year puts `cHigh` first — the
simplified stage did not rank. -/
theorem C2_rank_counterexample :
    processFolder twoStageEnv 2026 false (chars "Dune COMPLETE 2020") =
      ([.search (chars "Dune COMPLETE 2020"), .search (chars "Dune 2020"),
        .prompted [cLow, cHigh],
        .renamed false (chars "Low (2020) - IMDb- 6.0")], none)
    ∧ rank (some 2020) [cLow, cHigh] = [cHigh, cLow]
    ∧ ([cLow, cHigh] : List Candidate) ≠ [cHigh, cLow] := by
  refine ⟨?_, ?_, by decide⟩
  · simp +decide [processFolder, twoStageEnv, adjSanitized, extract_year, sanitize, cleanOf,
      chars, pass1, findBracketEnd, dpMatchAt, dpDrop, stripParensChars, collapseWs, pyStrip,
      pyStripLeft, pyStripRight, yearScan, yearTokAt, yearShape, bOkOpt, wordOpt, isWordChar,
      isPySpace, dsVal, digitVal, already_properly_named, apnScan, tailMatch, ratingTail,
      digitsThenEnd, endOk, containsSeg, begMatch, natToChars, natToCharsAux, digitChar,
      rank, List.mergeSort, step3, simplify, pySplitWs, extraneousWords, pyUpper, joinSpace,
      removeParenGroups, findParenEnd, stepRename, tagEv, renameFolder, candidateChoice,
      computeNewName, showYearField, safe_name, illegalFsChar, cLow, cHigh]
  · simp +decide [rank, List.mergeSort, leYear, candKey, cLow, cHigh]

/-- Witness for C2's amended statement: the simplified stage of the staging
scenario prompts with the unranked catalog list. -/
theorem C2_rank_only_first_stage_witness :
    step3 twoStageEnv false (chars "Dune COMPLETE 2020") =
      tagEv (.search (chars "Dune 2020"))
        (stepRename twoStageEnv.select false [cLow, cHigh]) := by
  have h1 : simplify (chars "Dune COMPLETE 2020") = chars "Dune 2020" := by
    simp +decide [simplify, pySplitWs, extraneousWords, pyUpper, joinSpace,
      removeParenGroups, findParenEnd, pyStrip, pyStripLeft, pyStripRight, isPySpace, chars]
  have h := C2_rank_only_first_stage.2.1 twoStageEnv false (chars "Dune COMPLETE 2020")
    [cLow, cHigh] (by rw [h1]; decide) (by rw [h1]; simp +decide [twoStageEnv]) (by decide)
  rw [h1] at h
  exact h

/-! ## Helper development for sanitize idempotence (claim C8) -/

/-- Some position of `l` (scanned with original previous character `prev`)
matches `\b\d+p\b`. -/
def hasDPTok : Option Char → List Char → Bool
  | _, [] => false
  | prev, c :: cs => dpMatchAt prev (c :: cs) || hasDPTok (some c) cs

/-- Some `[` of `l` is followed by a `]` with no newline between, i.e.
`\[.*?\]` matches somewhere in `l`. -/
def hasBracketPair : List Char → Bool
  | [] => false
  | c :: cs => (c == '[' && (findBracketEnd cs).isSome) || hasBracketPair cs

theorem digit_toNat_bounds (c : Char) (h : c.isDigit = true) :
    48 ≤ c.toNat ∧ c.toNat ≤ 57 := by
  simp [Char.isDigit] at h
  exact h

theorem digit_not_ws (c : Char) (h : c.isDigit = true) : isPySpace c = false := by
  have hb := digit_toNat_bounds c h
  rw [Bool.eq_false_iff]
  intro hsp
  have h6 : c = ' ' ∨ c = '\t' ∨ c = '\n' ∨ c = '\r' ∨ c = '\x0b' ∨ c = '\x0c' := by
    simpa [isPySpace, or_assoc] using hsp
  rcases h6 with rfl | rfl | rfl | rfl | rfl | rfl <;> exact absurd hb (by decide)

theorem digit_not_sep (c : Char) (h : c.isDigit = true) :
    c ≠ '.' ∧ c ≠ '-' ∧ c ≠ '_' ∧ c ≠ '(' ∧ c ≠ ')' := by
  have hb := digit_toNat_bounds c h
  refine ⟨?_, ?_, ?_, ?_, ?_⟩ <;> (intro he; rw [he] at hb; exact absurd hb (by decide))

theorem digitVal_digitChar (k : Nat) (h : k ≤ 9) : digitVal (digitChar k) = k := by
  interval_cases k <;> decide

theorem dsVal_natToChars_year (y : Nat) (h1 : 1900 ≤ y) (h2 : y ≤ 2099) :
    dsVal (natToChars y) = y := by
  rw [natToChars_year y h1 h2]
  simp only [dsVal, List.foldl]
  rw [digitVal_digitChar (y / 1000) (by omega), digitVal_digitChar (y / 100 % 10) (by omega),
    digitVal_digitChar (y / 10 % 10) (by omega), digitVal_digitChar (y % 10) (by omega)]
  omega

theorem head?_dropWhile (p : Char → Bool) :
    ∀ (l : List Char) (c : Char), (l.dropWhile p).head? = some c → p c = false := by
  intro l
  induction l with
  | nil => intro c h; simp at h
  | cons a as ih =>
    intro c h
    rw [List.dropWhile_cons] at h
    split_ifs at h with ha
    · exact ih c h
    · simp at h
      rw [← h]
      exact Bool.eq_false_iff.mpr ha

theorem mem_takeWhile_ws (p : Char → Bool) :
    ∀ (l : List Char) (c : Char), c ∈ l.takeWhile p → p c = true := by
  intro l
  induction l with
  | nil => intro c h; simp at h
  | cons a as ih =>
    intro c h
    rw [List.takeWhile_cons] at h
    split_ifs at h with ha
    · rcases List.mem_cons.mp h with rfl | h2
      · exact ha
      · exact ih c h2
    · simp at h

/-- Characters of the first pass's output are never `.`, `-` or `_` (each is
unconditionally replaced by a space). -/
theorem pass1_not_sep :
    ∀ (n : Nat) (l : List Char), l.length ≤ n → ∀ (prev : Option Char) (c : Char),
      c ∈ pass1 prev l → c ≠ '.' ∧ c ≠ '-' ∧ c ≠ '_' := by
  intro n
  induction n with
  | zero =>
    intro l hl prev c hc
    match l with
    | [] => simp [pass1] at hc
    | _ :: _ => simp at hl
  | succ n ih =>
    intro l hl prev c hc
    match l with
    | [] => simp [pass1] at hc
    | c0 :: cs =>
      rw [pass1] at hc
      split_ifs at hc with h1 h2 h3
      · cases hfb : findBracketEnd cs with
        | some rest =>
          rw [hfb] at hc
          rcases List.mem_cons.mp hc with rfl | hc2
          · decide
          · have hr := findBracketEnd_length cs rest hfb
            exact ih rest (by simp at hl; omega) (some ']') c hc2
        | none =>
          rw [hfb] at hc
          rcases List.mem_cons.mp hc with rfl | hc2
          · decide
          · exact ih cs (by simp at hl; omega) (some '[') c hc2
      · rcases List.mem_cons.mp hc with rfl | hc2
        · decide
        · have hd := dpDrop_length c0 cs
          exact ih (dpDrop (c0 :: cs)) (by simp at hl hd; omega) (some 'p') c hc2
      · rcases List.mem_cons.mp hc with rfl | hc2
        · decide
        · exact ih cs (by simp at hl; omega) (some c0) c hc2
      · rcases List.mem_cons.mp hc with rfl | hc2
        · refine ⟨?_, ?_, ?_⟩ <;>
            (intro he
             exact absurd (by simp [he] : (c == '.' || c == '-' || c == '_') = true) h3)
        · exact ih cs (by simp at hl; omega) (some c0) c hc2

/-- Characters of the paren-stripping pass: never a parenthesis, and either a
space or an unchanged input character. -/
theorem stripParensChars_mem (l : List Char) (c : Char) (hc : c ∈ stripParensChars l) :
    c ≠ '(' ∧ c ≠ ')' ∧ (c = ' ' ∨ c ∈ l) := by
  simp only [stripParensChars, List.mem_map] at hc
  obtain ⟨d, hd, hdc⟩ := hc
  split_ifs at hdc with hpar
  · subst hdc
    exact ⟨by decide, by decide, Or.inl rfl⟩
  · subst hdc
    have h2 : ¬(d = '(' ∨ d = ')') := by simpa using hpar
    push_neg at h2
    exact ⟨h2.1, h2.2, Or.inr hd⟩

/-- The adjacency relation of a collapsed string: no two neighbouring
whitespace characters. -/
def noAdjWs (l : List Char) : Prop :=
  l.Chain' (fun a b => isPySpace a = false ∨ isPySpace b = false)

theorem collapseWs_mem :
    ∀ (l : List Char) (c : Char), c ∈ collapseWs l →
      c = ' ' ∨ (c ∈ l ∧ isPySpace c = false) := by
  intro l
  induction l with
  | nil => intro c hc; simp [collapseWs] at hc
  | cons c1 cs ih =>
    cases cs with
    | nil =>
      intro c hc
      rw [collapseWs] at hc
      split_ifs at hc with h1
      · simp at hc; exact Or.inl hc
      · simp at hc
        subst hc
        exact Or.inr ⟨by simp, Bool.eq_false_iff.mpr h1⟩
    | cons c2 cs2 =>
      intro c hc
      rw [collapseWs] at hc
      split_ifs at hc with h1 h2
      · rcases ih c hc with h | ⟨hm, hw⟩
        · exact Or.inl h
        · exact Or.inr ⟨by simp [List.mem_cons.mp hm], hw⟩
      · rcases List.mem_cons.mp hc with rfl | hc2
        · exact Or.inl rfl
        · rcases ih c hc2 with h | ⟨hm, hw⟩
          · exact Or.inl h
          · exact Or.inr ⟨by simp [List.mem_cons.mp hm], hw⟩
      · rcases List.mem_cons.mp hc with rfl | hc2
        · exact Or.inr ⟨by simp, Bool.eq_false_iff.mpr h2⟩
        · rcases ih c hc2 with h | ⟨hm, hw⟩
          · exact Or.inl h
          · exact Or.inr ⟨by simp [List.mem_cons.mp hm], hw⟩

theorem collapseWs_head (c : Char) (cs : List Char) (h : isPySpace c = false) :
    (collapseWs (c :: cs)).head? = some c := by
  cases cs with
  | nil => rw [collapseWs]; simp [h]
  | cons c2 cs2 =>
    rw [collapseWs]
    rw [if_neg (by simp [h]), if_neg (by simp [h])]
    rfl

theorem collapseWs_chain : ∀ (l : List Char), noAdjWs (collapseWs l) := by
  intro l
  induction l with
  | nil => simp [collapseWs, noAdjWs]
  | cons c1 cs ih =>
    cases cs with
    | nil =>
      rw [collapseWs]
      split_ifs <;> simp [noAdjWs]
    | cons c2 cs2 =>
      rw [collapseWs]
      split_ifs with h1 h2
      · exact ih
      · rw [noAdjWs, List.chain'_cons']
        refine ⟨?_, ih⟩
        intro y hy
        have hc2 : isPySpace c2 = false := by
          rw [Bool.eq_false_iff]
          intro hc2t
          exact h1 (by simp [h2, hc2t])
        rw [collapseWs_head c2 cs2 hc2] at hy
        simp at hy
        subst hy
        exact Or.inr hc2
      · rw [noAdjWs, List.chain'_cons']
        exact ⟨fun y _ => Or.inl (Bool.eq_false_iff.mpr h2), ih⟩

theorem pyStripRight_decomp (l : List Char) :
    ∃ w, l = pyStripRight l ++ w ∧ ∀ c ∈ w, isPySpace c = true := by
  refine ⟨(l.reverse.takeWhile isPySpace).reverse, ?_, ?_⟩
  · have h := List.takeWhile_append_dropWhile isPySpace l.reverse
    have h2 := congrArg List.reverse h
    rw [List.reverse_append, List.reverse_reverse] at h2
    rw [pyStripRight]
    exact h2.symm
  · intro c hc
    rw [List.mem_reverse] at hc
    exact mem_takeWhile_ws isPySpace l.reverse c hc

theorem getLast?_pyStripRight (l : List Char) (c : Char)
    (h : (pyStripRight l).getLast? = some c) : isPySpace c = false := by
  rw [pyStripRight, List.getLast?_reverse] at h
  exact head?_dropWhile isPySpace l.reverse c h

theorem head?_pyStripLeft (l : List Char) (c : Char)
    (h : (pyStripLeft l).head? = some c) : isPySpace c = false :=
  head?_dropWhile isPySpace l c h

theorem head?_of_pyStripRight (l : List Char) (c : Char)
    (h : (pyStripRight l).head? = some c) : l.head? = some c := by
  obtain ⟨w, hw, _⟩ := pyStripRight_decomp l
  rw [hw]
  cases hps : pyStripRight l with
  | nil => rw [hps] at h; simp at h
  | cons a as => rw [hps] at h; simp at h; simp [hps, h]

theorem head?_pyStrip (l : List Char) (c : Char)
    (h : (pyStrip l).head? = some c) : isPySpace c = false :=
  head?_pyStripLeft l c (head?_of_pyStripRight (pyStripLeft l) c h)

theorem getLast?_pyStrip (l : List Char) (c : Char)
    (h : (pyStrip l).getLast? = some c) : isPySpace c = false :=
  getLast?_pyStripRight (pyStripLeft l) c h

theorem pyStrip_mem (l : List Char) (c : Char) (hc : c ∈ pyStrip l) : c ∈ l := by
  rw [pyStrip, pyStripRight] at hc
  rw [List.mem_reverse] at hc
  have h1 := (@List.dropWhile_sublist _ ((pyStripLeft l).reverse) isPySpace).subset hc
  rw [List.mem_reverse] at h1
  exact (@List.dropWhile_sublist _ l isPySpace).subset h1

theorem noAdjWs_dropWhile (p : Char → Bool) :
    ∀ (l : List Char), noAdjWs l → noAdjWs (l.dropWhile p) := by
  intro l
  induction l with
  | nil => intro h; simpa using h
  | cons a as ih =>
    intro h
    rw [List.dropWhile_cons]
    split_ifs with ha
    · exact ih (List.Chain'.tail h)
    · exact h

theorem noAdjWs_pyStripRight (l : List Char) (h : noAdjWs l) :
    noAdjWs (pyStripRight l) := by
  obtain ⟨w, hw, _⟩ := pyStripRight_decomp l
  rw [hw, noAdjWs, List.chain'_append] at h
  exact h.1

theorem noAdjWs_pyStrip (l : List Char) (h : noAdjWs l) : noAdjWs (pyStrip l) :=
  noAdjWs_pyStripRight _ (noAdjWs_dropWhile isPySpace l h)

theorem chain_of_all_nonws (l : List Char) (h : ∀ c ∈ l, isPySpace c = false) :
    noAdjWs l := by
  induction l with
  | nil => simp [noAdjWs]
  | cons a as ih =>
    rw [noAdjWs, List.chain'_cons']
    exact ⟨fun y _ => Or.inl (h a (by simp)),
      ih (fun c hc => h c (by simp [hc]))⟩

theorem collapseWs_id :
    ∀ (l : List Char), (∀ c ∈ l, isPySpace c = true → c = ' ') → noAdjWs l →
      collapseWs l = l := by
  intro l
  induction l with
  | nil => intro _ _; rfl
  | cons c1 cs ih =>
    intro hws hadj
    cases cs with
    | nil =>
      rw [collapseWs]
      split_ifs with h1
      · rw [hws c1 (by simp) h1]
      · rfl
    | cons c2 cs2 =>
      rw [collapseWs]
      have hnd : ¬(isPySpace c1 && isPySpace c2) = true := by
        intro hd
        rcases Bool.and_eq_true_iff.mp hd with ⟨ha, hb⟩
        have hr := (List.chain'_cons'.mp hadj).1 c2 (by simp)
        rcases hr with h | h <;> simp_all
      rw [if_neg hnd]
      have htail := ih (fun c hc hw => hws c (by simp [hc]) hw) (List.Chain'.tail hadj)
      rw [htail]
      split_ifs with h1
      · rw [hws c1 (by simp) h1]
      · rfl

theorem pyStripLeft_id (l : List Char)
    (h : ∀ c, l.head? = some c → isPySpace c = false) : pyStripLeft l = l := by
  cases l with
  | nil => rfl
  | cons a as =>
    rw [pyStripLeft, List.dropWhile_cons, if_neg (by simp [h a rfl])]

theorem pyStripRight_id (l : List Char)
    (h : ∀ c, l.getLast? = some c → isPySpace c = false) : pyStripRight l = l := by
  rw [pyStripRight]
  cases hr : l.reverse with
  | nil =>
    simp at hr
    simp [hr]
  | cons a as =>
    have ha : l.getLast? = some a := by
      rw [← List.head?_reverse, hr]
      rfl
    rw [List.dropWhile_cons, if_neg (by simp [h a ha])]
    rw [← hr, List.reverse_reverse]

theorem pyStrip_id (l : List Char)
    (hh : ∀ c, l.head? = some c → isPySpace c = false)
    (hl : ∀ c, l.getLast? = some c → isPySpace c = false) : pyStrip l = l := by
  rw [pyStrip, pyStripLeft_id l hh, pyStripRight_id l hl]

theorem pyStrip_snoc_space (t : List Char)
    (hh : ∀ c, t.head? = some c → isPySpace c = false)
    (hl : ∀ c, t.getLast? = some c → isPySpace c = false) :
    pyStrip (t ++ [' ']) = t := by
  cases t with
  | nil => rfl
  | cons a as =>
    rw [pyStrip]
    have h1 : pyStripLeft ((a :: as) ++ [' ']) = (a :: as) ++ [' '] := by
      rw [pyStripLeft, List.cons_append, List.dropWhile_cons,
        if_neg (by simp [hh a rfl])]
    rw [h1, pyStripRight]
    rw [List.reverse_append]
    simp only [List.reverse_cons, List.reverse_nil, List.nil_append, List.singleton_append]
    rw [List.dropWhile_cons, if_pos (by decide)]
    have h2 : (a :: as).reverse.dropWhile isPySpace = (a :: as).reverse := by
      cases hr : (a :: as).reverse with
      | nil => simp at hr
      | cons b bs =>
        have hb : (a :: as).getLast? = some b := by
          rw [← List.head?_reverse, hr]
          rfl
        rw [List.dropWhile_cons, if_neg (by simp [hl b hb])]
    rw [List.reverse_cons] at h2
    rw [h2]
    simp

theorem pyStripRight_cases (l : List Char)
    (hws : ∀ c ∈ l, isPySpace c = true → c = ' ') (hadj : noAdjWs l) :
    pyStripRight l = l ∨ l = pyStripRight l ++ [' '] := by
  obtain ⟨w, hw, hwall⟩ := pyStripRight_decomp l
  match w, hw, hwall with
  | [], hw, hwall =>
    left
    simp at hw
    exact hw.symm
  | [x], hw, hwall =>
    right
    have hx : x = ' ' := hws x (by rw [hw]; simp) (hwall x (by simp))
    rw [← hx]
    exact hw
  | x :: y :: w', hw, hwall =>
    exfalso
    have hxw : isPySpace x = true := hwall x (by simp)
    have hyw : isPySpace y = true := hwall y (by simp)
    rw [hw, noAdjWs, List.chain'_append] at hadj
    have h2 := hadj.2.1
    rw [List.chain'_cons'] at h2
    rcases h2.1 y (by simp) with h | h
    · rw [h] at hxw; exact Bool.noConfusion hxw
    · rw [h] at hyw; exact Bool.noConfusion hyw

/-- The first pass leaves a string unchanged when it has no separator
characters, no `\d+p` token and no bracket pair. -/
theorem pass1_id :
    ∀ (n : Nat) (l : List Char), l.length ≤ n → ∀ (prev : Option Char),
      (∀ c ∈ l, c ≠ '.' ∧ c ≠ '-' ∧ c ≠ '_') → hasDPTok prev l = false →
      hasBracketPair l = false → pass1 prev l = l := by
  intro n
  induction n with
  | zero =>
    intro l hl prev _ _ _
    match l with
    | [] => simp [pass1]
    | _ :: _ => simp at hl
  | succ n ih =>
    intro l hl prev hsep hdp hbr
    match l with
    | [] => simp [pass1]
    | c0 :: cs =>
      rw [hasDPTok] at hdp
      rw [hasBracketPair] at hbr
      have hdp1 : dpMatchAt prev (c0 :: cs) = false := by
        rcases Bool.or_eq_false_iff.mp hdp with ⟨h, _⟩
        exact h
      have hdp2 : hasDPTok (some c0) cs = false := (Bool.or_eq_false_iff.mp hdp).2
      have hbr2 : hasBracketPair cs = false := (Bool.or_eq_false_iff.mp hbr).2
      rw [pass1]
      by_cases hc0 : (c0 == '[') = true
      · have hfb : findBracketEnd cs = none := by
          have h1 := (Bool.or_eq_false_iff.mp hbr).1
          rw [Bool.and_eq_false_iff] at h1
          rcases h1 with h | h
          · exact absurd hc0 (by simp [h])
          · exact Option.not_isSome_iff_eq_none.mp (by simp [h])
        rw [if_pos hc0, hfb]
        have heq : c0 = '[' := by simpa using hc0
        rw [heq]
        rw [ih cs (by simp at hl; omega) (some '[')
          (fun c hc => hsep c (by simp [hc])) (heq ▸ hdp2) hbr2]
      · rw [if_neg hc0, if_neg (by simp [hdp1]),
          if_neg (by
            intro hor
            have h3 := hsep c0 (by simp)
            rcases Bool.or_eq_true_iff.mp hor with h | h
            · rcases Bool.or_eq_true_iff.mp h with h' | h'
              · exact h3.1 (by simpa using h')
              · exact h3.2.1 (by simpa using h')
            · exact h3.2.2 (by simpa using h))]
        rw [ih cs (by simp at hl; omega) (some c0)
          (fun c hc => hsep c (by simp [hc])) hdp2 hbr2]

/-- The paren substitution leaves a paren-free string unchanged. -/
theorem stripParensChars_id (l : List Char)
    (h : ∀ c ∈ l, c ≠ '(' ∧ c ≠ ')') : stripParensChars l = l := by
  induction l with
  | nil => rfl
  | cons c cs ih =>
    have hc := h c (by simp)
    rw [stripParensChars, List.map_cons]
    rw [if_neg (by simp [hc.1, hc.2])]
    have := ih (fun d hd => h d (by simp [hd]))
    rw [stripParensChars] at this
    rw [this]

/-! ### Position-wise description of the first year-token search -/

/-- The original character just before the continuation of `l`, given the
character before `l` itself. -/
def lastOpt (prev : Option Char) (l : List Char) : Option Char :=
  match l.getLast? with
  | some c => some c
  | none => prev

/-- A year token at the head of `l` alone, with a virtual lookahead `nx` for
a token ending exactly at the end of `l`. -/
def tokHere (prev : Option Char) (l : List Char) (nx : Option Char) : Bool :=
  match l with
  | d1 :: d2 :: d3 :: d4 :: rest =>
    !wordOpt prev && yearShape d1 d2 d3 d4 &&
    (match rest with
     | [] => bOkOpt nx
     | r :: _ => !isWordChar r)
  | _ => false

/-- No year token inside `l` (with lookahead `nx` past its end). -/
def noTok : Option Char → List Char → Option Char → Bool
  | _, [], _ => true
  | prev, c :: cs, nx => !(tokHere prev (c :: cs) nx) && noTok (some c) cs nx

theorem lastOpt_cons (prev : Option Char) (c : Char) (p : List Char) :
    lastOpt prev (c :: p) = lastOpt (some c) p := by
  rw [lastOpt, lastOpt]
  cases p with
  | nil => simp
  | cons d ds =>
    rw [List.getLast?_cons_cons]
    cases hg : (d :: ds).getLast? with
    | none => simp at hg
    | some x => rfl

theorem yearTokAt_length (prev : Option Char) (l : List Char)
    (h : yearTokAt prev l = true) : 4 ≤ l.length := by
  match l with
  | [] => simp [yearTokAt] at h
  | [a] => simp [yearTokAt] at h
  | [a, b] => simp [yearTokAt] at h
  | [a, b, c] => simp [yearTokAt] at h
  | a :: b :: c :: d :: rest => simp

theorem tokHere_imp_yearTokAt (prev : Option Char) (u w : List Char)
    (h : tokHere prev u w.head? = true) : yearTokAt prev (u ++ w) = true := by
  match u with
  | [] => simp [tokHere] at h
  | [a] => simp [tokHere] at h
  | [a, b] => simp [tokHere] at h
  | [a, b, c] => simp [tokHere] at h
  | a :: b :: c :: d :: rest =>
    cases rest with
    | nil =>
      simp only [tokHere, bOkOpt] at h
      cases w with
      | nil => simp [yearTokAt, bOkOpt] at h ⊢; exact h
      | cons r rs => simp [yearTokAt, bOkOpt] at h ⊢; exact h
    | cons r rs =>
      simp only [tokHere, bOkOpt] at h
      simp [yearTokAt, bOkOpt] at h ⊢
      exact h

theorem yearTokAt_append_space (prev : Option Char) (u w : List Char) :
    yearTokAt prev (u ++ ' ' :: w) = tokHere prev u (some ' ') := by
  match u with
  | [] =>
    rcases w with _ | ⟨w1, _ | ⟨w2, _ | ⟨w3, ws⟩⟩⟩ <;>
      simp +decide [yearTokAt, tokHere, yearShape]
  | [a] =>
    rcases w with _ | ⟨w1, _ | ⟨w2, ws⟩⟩ <;>
      simp +decide [yearTokAt, tokHere, yearShape]
  | [a, b] =>
    rcases w with _ | ⟨w1, ws⟩ <;>
      simp +decide [yearTokAt, tokHere, yearShape]
  | [a, b, c] =>
    simp +decide [yearTokAt, tokHere, yearShape]
  | a :: b :: c :: d :: rest =>
    cases rest with
    | nil => simp [yearTokAt, tokHere, bOkOpt]
    | cons r rs => simp [yearTokAt, tokHere, bOkOpt]

theorem tokHere_snoc (prev : Option Char) (u : List Char) (x : Char)
    (nx nx' : Option Char) (h : tokHere prev u (some x) = true) :
    tokHere prev (u ++ [x]) nx' = true := by
  match u with
  | [] => simp [tokHere] at h
  | [a] => simp [tokHere] at h
  | [a, b] => simp [tokHere] at h
  | [a, b, c] => simp [tokHere] at h
  | a :: b :: c :: d :: rest =>
    cases rest with
    | nil => simpa [tokHere, bOkOpt] using h
    | cons r rs => simpa [tokHere] using h

theorem noTok_snoc :
    ∀ (u : List Char) (p : Option Char) (x : Char) (nx : Option Char),
      noTok p (u ++ [x]) nx = true → noTok p u (some x) = true := by
  intro u
  induction u with
  | nil => intro p x nx _; rfl
  | cons c cs ih =>
    intro p x nx h
    rw [List.cons_append, noTok] at h
    rcases Bool.and_eq_true_iff.mp h with ⟨h1, h2⟩
    rw [noTok]
    rw [Bool.and_eq_true_iff]
    refine ⟨?_, ih (some c) x nx h2⟩
    rw [Bool.not_eq_true']
    rw [Bool.eq_false_iff]
    intro htok
    have := tokHere_snoc p (c :: cs) x nx nx htok
    rw [Bool.not_eq_true', Bool.eq_false_iff] at h1
    exact h1 (by rw [← List.cons_append]; exact this)

theorem tokHere_indep_nx (p : Option Char) (a b c d e : Char) (rest : List Char)
    (nx nx' : Option Char) :
    tokHere p (a :: b :: c :: d :: e :: rest) nx =
    tokHere p (a :: b :: c :: d :: e :: rest) nx' := rfl

theorem noTok_change_nx :
    ∀ (u : List Char) (p : Option Char) (nx nx' : Option Char),
      noTok p u nx = true → (∀ c, u.getLast? = some c → c.isDigit = false) →
      noTok p u nx' = true := by
  intro u
  induction u with
  | nil => intro p nx nx' _ _; rfl
  | cons c cs ih =>
    intro p nx nx' h hlast
    rw [noTok] at h
    rcases Bool.and_eq_true_iff.mp h with ⟨h1, h2⟩
    rw [noTok, Bool.and_eq_true_iff]
    constructor
    · match c, cs, hlast with
      | c, [], hlast => rfl
      | c, [a], hlast => rfl
      | c, [a, b], hlast => rfl
      | c, [a, b, d], hlast =>
        rw [Bool.not_eq_true', Bool.eq_false_iff]
        intro htok
        simp only [tokHere, Bool.and_eq_true_iff] at htok
        have hd : d.isDigit = false := hlast d (by simp)
        rcases htok with ⟨⟨_, hsh⟩, _⟩
        rw [yearShape] at hsh
        rcases Bool.and_eq_true_iff.mp hsh with ⟨hsh1, hd4⟩
        rw [hd] at hd4
        exact Bool.noConfusion hd4
      | c, a :: b :: d :: e :: rest, hlast =>
        rw [tokHere_indep_nx p c a b d e rest nx' nx]
        exact h1
    · cases cs with
      | nil => rfl
      | cons a as =>
        exact ih (some c) nx nx' h2 (fun x hx => hlast x (by rw [List.getLast?_cons_cons]; exact hx))

/-- Decomposing a successful first-token search: the prefix holds no token,
and the token matches at the split point. -/
theorem yearScan_decomp :
    ∀ (l : List Char) (prev : Option Char) (pre ds post : List Char),
      yearScan prev l = some (pre, ds, post) →
      l = pre ++ ds ++ post ∧ noTok prev pre (ds ++ post).head? = true ∧
      yearTokAt (lastOpt prev pre) (ds ++ post) = true ∧ ds.length = 4 := by
  intro l
  induction l with
  | nil => intro prev pre ds post h; simp [yearScan] at h
  | cons c cs ih =>
    intro prev pre ds post h
    rw [yearScan] at h
    split_ifs at h with htok
    · simp only [Option.some.injEq, Prod.mk.injEq] at h
      obtain ⟨h1, h2, h3⟩ := h
      subst h1; subst h2; subst h3
      refine ⟨by simp [List.take_append_drop], rfl, ?_, ?_⟩
      · have hlo : lastOpt prev ([] : List Char) = prev := rfl
        rw [hlo, List.take_append_drop]
        exact htok
      · have h4 := yearTokAt_length prev (c :: cs) htok
        simp [List.length_take] at h4 ⊢
        omega
    · cases hscan : yearScan (some c) cs with
      | none => rw [hscan] at h; simp at h
      | some x =>
        obtain ⟨p, d, r⟩ := x
        rw [hscan] at h
        simp only [Option.map_some', Option.some.injEq, Prod.mk.injEq] at h
        obtain ⟨h1, h2, h3⟩ := h
        subst h1; subst h2; subst h3
        obtain ⟨hL, hnt, htk, hlen⟩ := ih (some c) p d r hscan
        refine ⟨by rw [hL]; simp, ?_, ?_, hlen⟩
        · rw [noTok, Bool.and_eq_true_iff]
          refine ⟨?_, hnt⟩
          rw [Bool.not_eq_true', Bool.eq_false_iff]
          intro hth
          have h5 := tokHere_imp_yearTokAt prev (c :: p) (d ++ r) hth
          rw [show (c :: p) ++ (d ++ r) = c :: cs from by rw [hL]; simp] at h5
          exact htok h5
        · rw [lastOpt_cons]
          exact htk

/-- Building the first-token search result for a token preceded by a space
and ending the string. -/
theorem yearScan_build :
    ∀ (u : List Char) (prev : Option Char) (e1 e2 e3 e4 : Char),
      yearShape e1 e2 e3 e4 = true → noTok prev u (some ' ') = true →
      yearScan prev (u ++ ' ' :: [e1, e2, e3, e4]) =
        some (u ++ [' '], [e1, e2, e3, e4], []) := by
  intro u
  induction u with
  | nil =>
    intro prev e1 e2 e3 e4 hsh _
    rw [List.nil_append, yearScan]
    rw [if_neg (by
      rw [show (' ' :: [e1, e2, e3, e4] : List Char) = [] ++ ' ' :: [e1, e2, e3, e4] from rfl,
        yearTokAt_append_space]
      simp [tokHere])]
    rw [yearScan]
    rw [if_pos (by simp +decide [yearTokAt, wordOpt, isWordChar, bOkOpt, hsh])]
    simp
  | cons c u' ih =>
    intro prev e1 e2 e3 e4 hsh hnt
    rw [noTok] at hnt
    rcases Bool.and_eq_true_iff.mp hnt with ⟨h1, h2⟩
    rw [List.cons_append, yearScan]
    rw [if_neg (by
      rw [show c :: (u' ++ ' ' :: [e1, e2, e3, e4]) =
        (c :: u') ++ ' ' :: [e1, e2, e3, e4] from by simp,
        yearTokAt_append_space]
      rw [Bool.not_eq_true'] at h1
      simp [h1])]
    rw [ih (some c) e1 e2 e3 e4 hsh h2]
    simp

/-! ### Character properties of the cleaned name -/

theorem digit_isWordChar (c : Char) (h : c.isDigit = true) : isWordChar c = true := by
  simp [isWordChar, Char.isAlphanum, h]

theorem digitVal_le9 (c : Char) (h : c.isDigit = true) : digitVal c ≤ 9 := by
  have := digit_toNat_bounds c h
  rw [digitVal]
  omega

theorem dsVal_shape_bounds (e1 e2 e3 e4 : Char) (h : yearShape e1 e2 e3 e4 = true) :
    1900 ≤ dsVal [e1, e2, e3, e4] ∧ dsVal [e1, e2, e3, e4] ≤ 2099 := by
  rw [yearShape] at h
  rcases Bool.and_eq_true_iff.mp h with ⟨h12, h4⟩
  rcases Bool.and_eq_true_iff.mp h12 with ⟨h1, h3⟩
  have hv3 := digitVal_le9 e3 h3
  have hv4 := digitVal_le9 e4 h4
  have hval : dsVal [e1, e2, e3, e4] =
      1000 * digitVal e1 + 100 * digitVal e2 + 10 * digitVal e3 + digitVal e4 := by
    simp [dsVal, List.foldl]
    ring
  rcases Bool.or_eq_true_iff.mp h1 with h19 | h20
  · rcases Bool.and_eq_true_iff.mp h19 with ⟨he1, he2⟩
    have e1v : e1 = '1' := by simpa using he1
    have e2v : e2 = '9' := by simpa using he2
    rw [hval, e1v, e2v]
    have : digitVal '1' = 1 := by decide
    have h9 : digitVal '9' = 9 := by decide
    omega
  · rcases Bool.and_eq_true_iff.mp h20 with ⟨he1, he2⟩
    have e1v : e1 = '2' := by simpa using he1
    have e2v : e2 = '0' := by simpa using he2
    rw [hval, e1v, e2v]
    have h2v : digitVal '2' = 2 := by decide
    have h0 : digitVal '0' = 0 := by decide
    omega

theorem cleanOf_wsOk (x : List Char) :
    ∀ c ∈ cleanOf x, isPySpace c = true → c = ' ' := by
  intro c hc hw
  have h1 := pyStrip_mem _ c hc
  rcases collapseWs_mem _ c h1 with h | ⟨_, hnw⟩
  · exact h
  · rw [hw] at hnw; exact Bool.noConfusion hnw

theorem cleanOf_noAdj (x : List Char) : noAdjWs (cleanOf x) :=
  noAdjWs_pyStrip _ (collapseWs_chain _)

theorem cleanOf_no_sep (x : List Char) :
    ∀ c ∈ cleanOf x, c ≠ '.' ∧ c ≠ '-' ∧ c ≠ '_' := by
  intro c hc
  have h1 := pyStrip_mem _ c hc
  rcases collapseWs_mem _ c h1 with h | ⟨hm, _⟩
  · subst h; refine ⟨by decide, by decide, by decide⟩
  · rcases stripParensChars_mem _ c hm with ⟨_, _, h | hm2⟩
    · subst h; refine ⟨by decide, by decide, by decide⟩
    · exact pass1_not_sep _ _ (Nat.le_refl _) none c hm2

theorem cleanOf_no_paren (x : List Char) :
    ∀ c ∈ cleanOf x, c ≠ '(' ∧ c ≠ ')' := by
  intro c hc
  have h1 := pyStrip_mem _ c hc
  rcases collapseWs_mem _ c h1 with h | ⟨hm, _⟩
  · subst h; exact ⟨by decide, by decide⟩
  · exact ⟨(stripParensChars_mem _ c hm).1, (stripParensChars_mem _ c hm).2.1⟩

/-- Evaluation of `sanitize` when the scan finds an in-range year. -/
theorem sanitize_eval_found (cy : Nat) (x pre ds post : List Char)
    (hscan : yearScan none (cleanOf x) = some (pre, ds, post))
    (hr : 1900 ≤ dsVal ds ∧ dsVal ds ≤ cy) :
    sanitize cy x = pyStrip pre ++ ' ' :: natToChars (dsVal ds) := by
  simp only [sanitize]
  rw [hscan]
  simp only
  rw [if_pos hr]

/-- Evaluation of `sanitize` when the found year is out of range. -/
theorem sanitize_eval_oor (cy : Nat) (x pre ds post : List Char)
    (hscan : yearScan none (cleanOf x) = some (pre, ds, post))
    (hr : ¬(1900 ≤ dsVal ds ∧ dsVal ds ≤ cy)) :
    sanitize cy x = cleanOf x := by
  simp only [sanitize]
  rw [hscan]
  simp only
  rw [if_neg hr]

/-- Evaluation of `sanitize` when no year token is found. -/
theorem sanitize_eval_none (cy : Nat) (x : List Char)
    (hscan : yearScan none (cleanOf x) = none) :
    sanitize cy x = cleanOf x := by
  simp only [sanitize]
  rw [hscan]

/-- Evaluation of `extract_year` when the found year is out of range. -/
theorem extract_year_eval_oor (cy : Nat) (x pre ds post : List Char)
    (hscan : yearScan none x = some (pre, ds, post))
    (hr : ¬(1900 ≤ dsVal ds ∧ dsVal ds ≤ cy)) : extract_year cy x = none := by
  unfold extract_year
  rw [hscan]
  simp only
  rw [if_neg hr]

/-- Evaluation of `extract_year` when no year token is found. -/
theorem extract_year_eval_none (cy : Nat) (x : List Char)
    (hscan : yearScan none x = none) : extract_year cy x = none := by
  unfold extract_year
  rw [hscan]


/-- C8 (amended): `sanitize_folder_name` is idempotent on every input whose
sanitized form contains a normalized year token in `[1900, cy]`, provided that
form also holds no `\b\d+p\b` token and no `[...]` bracket pair.  The two
extra conditions are needed: a `\d+p` token or a bracket pair whose match was
blocked in the first pass (by an adjoining `_` word character, or by a newline
inside the brackets) can become removable after the separators are replaced by
spaces, so a second sanitize shrinks the name further
(see the counterexample). -/
theorem C8_sanitize_idem (cy : Nat) (x : List Char)
    (hy : (extract_year cy (sanitize cy x)).isSome = true)
    (hdp : hasDPTok none (sanitize cy x) = false)
    (hbr : hasBracketPair (sanitize cy x) = false) :
    sanitize cy (sanitize cy x) = sanitize cy x := by
  rcases hscan : yearScan none (cleanOf x) with _ | ⟨pre, ds, post⟩
  · rw [sanitize_eval_none cy x hscan] at hy
    rw [extract_year_eval_none cy _ hscan] at hy
    simp at hy
  · by_cases hr : 1900 ≤ dsVal ds ∧ dsVal ds ≤ cy
    · -- year found and in range
      have hs : sanitize cy x = pyStrip pre ++ ' ' :: natToChars (dsVal ds) :=
        sanitize_eval_found cy x pre ds post hscan hr
      obtain ⟨hr1, hr2⟩ := hr
      obtain ⟨hL, hnt, htk, hlen⟩ := yearScan_decomp (cleanOf x) none pre ds post hscan
      obtain ⟨e1, e2, e3, e4, hds⟩ : ∃ a b c d : Char, ds = [a, b, c, d] := by
        rcases ds with _ | ⟨a, _ | ⟨b, _ | ⟨c, _ | ⟨d, ds'⟩⟩⟩⟩ <;> simp at hlen
        exact ⟨a, b, c, d, by simp [hlen]⟩
      subst hds
      simp only [List.cons_append, List.nil_append, yearTokAt, Bool.and_eq_true_iff] at htk
      obtain ⟨⟨hbnd, hsh⟩, _⟩ := htk
      rw [Bool.not_eq_true'] at hbnd
      obtain ⟨hv1, hv2⟩ := dsVal_shape_bounds e1 e2 e3 e4 hsh
      set v := dsVal [e1, e2, e3, e4] with hvdef
      rw [hs] at hdp hbr
      rw [hs]
      -- membership and boundary facts for the kept prefix
      have hpre_mem : ∀ c ∈ pre, c ∈ cleanOf x := by
        intro c hc
        rw [hL]
        simp [hc]
      have hpre_head : ∀ c, pre.head? = some c → isPySpace c = false := by
        intro c hc
        have h1 : (cleanOf x).head? = some c := by
          rw [hL]
          cases pre with
          | nil => simp at hc
          | cons a as =>
            simp at hc
            simp [hc]
        unfold cleanOf at h1
        exact head?_pyStrip _ c h1
      have hws_pre : ∀ c ∈ pre, isPySpace c = true → c = ' ' :=
        fun c hc => cleanOf_wsOk x c (hpre_mem c hc)
      have hadj_pre : noAdjWs pre := by
        have h1 := cleanOf_noAdj x
        rw [hL, List.append_assoc, noAdjWs, List.chain'_append] at h1
        exact h1.1
      have hT_head : ∀ c, (pyStrip pre).head? = some c → isPySpace c = false :=
        fun c hc => head?_pyStrip pre c hc
      have hT_last : ∀ c, (pyStrip pre).getLast? = some c → isPySpace c = false :=
        fun c hc => getLast?_pyStrip pre c hc
      have hadj_T : noAdjWs (pyStrip pre) := noAdjWs_pyStrip pre hadj_pre
      have hT_mem : ∀ c ∈ pyStrip pre, c ∈ cleanOf x :=
        fun c hc => hpre_mem c (pyStrip_mem pre c hc)
      -- the kept prefix still holds no year token, with a following space
      have hPL : pyStripLeft pre = pre := pyStripLeft_id pre hpre_head
      have hT_eq : pyStrip pre = pyStripRight pre := by rw [pyStrip, hPL]
      have hnoTokT : noTok none (pyStrip pre) (some ' ') = true := by
        rcases pyStripRight_cases pre hws_pre hadj_pre with hcase | hcase
        · rw [hT_eq, hcase]
          refine noTok_change_nx pre none _ (some ' ') hnt ?_
          intro c hc
          have hlo : lastOpt none pre = some c := by rw [lastOpt, hc]
          rw [hlo] at hbnd
          have hbw : isWordChar c = false := by
            simpa [wordOpt] using hbnd
          cases hdig : c.isDigit with
          | false => rfl
          | true =>
            rw [digit_isWordChar c hdig] at hbw
            exact Bool.noConfusion hbw
        · rw [hT_eq]
          have h2 := hnt
          rw [hcase] at h2
          exact noTok_snoc (pyStripRight pre) none ' ' _ h2
      -- the digits of the normalized year
      have hYdig : ∀ c ∈ natToChars v, c.isDigit = true :=
        natToChars_year_digits v hv1 hv2
      -- character facts of the sanitized output
      have hs_nosep : ∀ c ∈ pyStrip pre ++ ' ' :: natToChars v,
          c ≠ '.' ∧ c ≠ '-' ∧ c ≠ '_' := by
        intro c hc
        rw [List.mem_append, List.mem_cons] at hc
        rcases hc with h | h | h
        · exact cleanOf_no_sep x c (hT_mem c h)
        · subst h
          exact ⟨by decide, by decide, by decide⟩
        · have hd := digit_not_sep c (hYdig c h)
          exact ⟨hd.1, hd.2.1, hd.2.2.1⟩
      have hs_noparen : ∀ c ∈ pyStrip pre ++ ' ' :: natToChars v,
          c ≠ '(' ∧ c ≠ ')' := by
        intro c hc
        rw [List.mem_append, List.mem_cons] at hc
        rcases hc with h | h | h
        · exact cleanOf_no_paren x c (hT_mem c h)
        · subst h
          exact ⟨by decide, by decide⟩
        · have hd := digit_not_sep c (hYdig c h)
          exact ⟨hd.2.2.2.1, hd.2.2.2.2⟩
      have hs_ws : ∀ c ∈ pyStrip pre ++ ' ' :: natToChars v,
          isPySpace c = true → c = ' ' := by
        intro c hc hcw
        rw [List.mem_append, List.mem_cons] at hc
        rcases hc with h | h | h
        · exact cleanOf_wsOk x c (hT_mem c h) hcw
        · exact h
        · rw [digit_not_ws c (hYdig c h)] at hcw
          exact Bool.noConfusion hcw
      have hadj_s : noAdjWs (pyStrip pre ++ ' ' :: natToChars v) := by
        rw [noAdjWs, List.chain'_append]
        refine ⟨hadj_T, ?_, ?_⟩
        · rw [List.chain'_cons']
          refine ⟨?_, ?_⟩
          · intro y hy2
            exact Or.inr (digit_not_ws y (hYdig y (List.mem_of_mem_head? hy2)))
          · exact chain_of_all_nonws _ (fun c hc => digit_not_ws c (hYdig c hc))
        · intro c hc y hy2
          rw [Option.mem_def] at hc
          exact Or.inl (hT_last c hc)
      have hcol : collapseWs (pyStrip pre ++ ' ' :: natToChars v) =
          pyStrip pre ++ ' ' :: natToChars v :=
        collapseWs_id _ hs_ws hadj_s
      have hp1 : pass1 none (pyStrip pre ++ ' ' :: natToChars v) =
          pyStrip pre ++ ' ' :: natToChars v :=
        pass1_id _ _ (Nat.le_refl _) none hs_nosep hdp hbr
      have hp2 : stripParensChars (pyStrip pre ++ ' ' :: natToChars v) =
          pyStrip pre ++ ' ' :: natToChars v :=
        stripParensChars_id _ hs_noparen
      cases hsplit : pyStrip pre with
      | nil =>
        rw [hsplit] at hp1 hp2 hcol
        simp only [List.nil_append] at hp1 hp2 hcol ⊢
        have hYhead : ∀ c, (natToChars v).head? = some c → isPySpace c = false :=
          fun c hc => digit_not_ws c (hYdig c (List.mem_of_mem_head? hc))
        have hYlast : ∀ c, (natToChars v).getLast? = some c → isPySpace c = false :=
          fun c hc => digit_not_ws c (hYdig c (List.mem_of_mem_getLast? hc))
        have hstrip : pyStrip (' ' :: natToChars v) = natToChars v := by
          rw [pyStrip]
          have h1 : pyStripLeft (' ' :: natToChars v) = natToChars v := by
            rw [pyStripLeft, List.dropWhile_cons, if_pos (by decide)]
            have h2 := pyStripLeft_id (natToChars v) hYhead
            rw [pyStripLeft] at h2
            exact h2
          rw [h1]
          exact pyStripRight_id _ hYlast
        have hcleanS : cleanOf (' ' :: natToChars v) = natToChars v := by
          unfold cleanOf
          rw [hp1, hp2, hcol, hstrip]
        have hsc2 : yearScan none (natToChars v) = some ([], natToChars v, []) := by
          rw [natToChars_year v hv1 hv2]
          rw [yearScan, if_pos (by
            simp [yearTokAt, wordOpt, bOkOpt, natToChars_year_shape v hv1 hv2])]
          simp
        have hscan2 : yearScan none (cleanOf (' ' :: natToChars v)) =
            some ([], natToChars v, []) := by
          rw [hcleanS]
          exact hsc2
        rw [sanitize_eval_found cy _ [] (natToChars v) [] hscan2
          (by rw [dsVal_natToChars_year v hv1 hv2]; exact ⟨hr1, hr2⟩)]
        rw [dsVal_natToChars_year v hv1 hv2]
        rfl
      | cons t0 ts =>
        rw [hsplit] at hp1 hp2 hcol hnoTokT hT_head hT_last
        have hhead_s : ∀ c, ((t0 :: ts) ++ ' ' :: natToChars v).head? = some c →
            isPySpace c = false := by
          intro c hc
          rw [List.cons_append, List.head?_cons] at hc
          injection hc with hc
          subst hc
          exact hT_head t0 rfl
        have hlast_s : ∀ c, ((t0 :: ts) ++ ' ' :: natToChars v).getLast? = some c →
            isPySpace c = false := by
          intro c hc
          rw [natToChars_year v hv1 hv2] at hc
          rw [show (t0 :: ts) ++ ' ' :: [digitChar (v / 1000), digitChar (v / 100 % 10),
                digitChar (v / 10 % 10), digitChar (v % 10)] =
              ((t0 :: ts) ++ [' ', digitChar (v / 1000), digitChar (v / 100 % 10),
                digitChar (v / 10 % 10)]) ++ [digitChar (v % 10)] from by simp] at hc
          rw [List.getLast?_concat] at hc
          injection hc with hc
          rw [← hc]
          exact digit_not_ws _ (digitChar_isDigit _ (by omega))
        have hcleanS : cleanOf ((t0 :: ts) ++ ' ' :: natToChars v) =
            (t0 :: ts) ++ ' ' :: natToChars v := by
          unfold cleanOf
          rw [hp1, hp2, hcol]
          exact pyStrip_id _ hhead_s hlast_s
        have hsc2 : yearScan none ((t0 :: ts) ++ ' ' :: natToChars v) =
            some ((t0 :: ts) ++ [' '], natToChars v, []) := by
          rw [natToChars_year v hv1 hv2]
          exact yearScan_build (t0 :: ts) none _ _ _ _
            (natToChars_year_shape v hv1 hv2) hnoTokT
        have hscan2 : yearScan none (cleanOf ((t0 :: ts) ++ ' ' :: natToChars v)) =
            some ((t0 :: ts) ++ [' '], natToChars v, []) := by
          rw [hcleanS]
          exact hsc2
        rw [sanitize_eval_found cy _ ((t0 :: ts) ++ [' ']) (natToChars v) [] hscan2
          (by rw [dsVal_natToChars_year v hv1 hv2]; exact ⟨hr1, hr2⟩)]
        rw [dsVal_natToChars_year v hv1 hv2]
        rw [pyStrip_snoc_space (t0 :: ts) hT_head hT_last]
    · rw [sanitize_eval_oor cy x pre ds post hscan hr] at hy
      rw [extract_year_eval_oor cy _ pre ds post hscan hr] at hy
      simp at hy

/-- Concrete evaluation: the dotted release name sanitizes to a clean title. -/
theorem sanitize_dotted_eval :
    sanitize 2026 (chars "The.Matrix.1999.720p") = chars "The Matrix 1999" := by
  simp +decide [sanitize, cleanOf, pass1, dpMatchAt, dpDrop, findBracketEnd,
    stripParensChars, collapseWs, isPySpace, pyStrip, pyStripLeft, pyStripRight,
    yearScan, yearTokAt, yearShape, bOkOpt, wordOpt, isWordChar, natToChars,
    natToCharsAux, digitVal, dsVal, digitChar, chars]

/-- Counterexample to the unconditional reading of C8: the sanitized form of
`"a_3p 1999"` is `"a 3p 1999"` (the `_` before `3p` blocks the `\b` of
`\b\d+p\b`, so the token survives pass one), it contains the normalized year
`1999`, yet a second sanitize deletes `3p` — sanitize is not idempotent on it. -/
theorem C8_sanitize_counterexample :
    (extract_year 2026 (sanitize 2026 (chars "a_3p 1999"))).isSome = true ∧
    sanitize 2026 (sanitize 2026 (chars "a_3p 1999")) ≠
      sanitize 2026 (chars "a_3p 1999") := by
  have h1 : sanitize 2026 (chars "a_3p 1999") = chars "a 3p 1999" := by
    simp +decide [sanitize, cleanOf, pass1, dpMatchAt, dpDrop, findBracketEnd,
      stripParensChars, collapseWs, isPySpace, pyStrip, pyStripLeft, pyStripRight,
      yearScan, yearTokAt, yearShape, bOkOpt, wordOpt, isWordChar, natToChars,
      natToCharsAux, digitVal, dsVal, digitChar, chars]
  have h2 : sanitize 2026 (chars "a 3p 1999") = chars "a 1999" := by
    simp +decide [sanitize, cleanOf, pass1, dpMatchAt, dpDrop, findBracketEnd,
      stripParensChars, collapseWs, isPySpace, pyStrip, pyStripLeft, pyStripRight,
      yearScan, yearTokAt, yearShape, bOkOpt, wordOpt, isWordChar, natToChars,
      natToCharsAux, digitVal, dsVal, digitChar, chars]
  rw [h1, h2]
  exact ⟨by decide, by decide⟩

/-- Witness for C8 at `"The.Matrix.1999.720p"`: its sanitized form
`"The Matrix 1999"` holds a year, no `\d+p` token and no bracket pair, and
sanitize fixes it. -/
theorem C8_sanitize_idem_witness :
    sanitize 2026 (sanitize 2026 (chars "The.Matrix.1999.720p")) =
      sanitize 2026 (chars "The.Matrix.1999.720p") :=
  C8_sanitize_idem 2026 (chars "The.Matrix.1999.720p")
    (by rw [sanitize_dotted_eval]; decide)
    (by rw [sanitize_dotted_eval]; decide)
    (by rw [sanitize_dotted_eval]; decide)

end ImdbRenamer
